import Mathlib

/-
Verification of the span-tracking core of the monkit monitor package
(src/span.go).  The Go code is shallowly embedded: spans live in a world
keyed by allocation pointers (Go pointer identity), every operation is a
pure function from world to world that also emits the ordered list of
lock/unlock steps and external callbacks (Func, registry, observer) the
Go code performs, and the panic/recover mechanism of the exit closure is
made explicit as an optional panic value threaded in and out.
-/

set_option autoImplicit false

namespace Monitor

/-- A name/value pair recorded on a span (type Annotation in span.go). -/
structure Annotation where
  name : String
  value : String
deriving DecidableEq

/-- Keys of the ambient context chain; `spanKey` is the reserved key the
package uses to stash the current span (type ctxKey / const spanKey). -/
inductive CtxKey where
  | spanKey : CtxKey
  | other : Nat → CtxKey
deriving DecidableEq

/-- Values stored in a context chain: either a span reference (a Go
`*Span`, modelled as the span's allocation pointer) or some opaque value. -/
inductive CtxVal where
  | spanVal : Nat → CtxVal
  | otherVal : Nat → CtxVal
deriving DecidableEq

/-- The ambient `context.Context` chain.  A context is empty, a key/value
extension of another context, or a span used as a context (`Span` embeds
`context.Context` and overrides `Value`); `spanCtx p inner` is span `p`
whose stored wrapped context is `inner`. -/
inductive Ctx where
  | empty : Ctx
  | withValue : Ctx → CtxKey → CtxVal → Ctx
  | spanCtx : Nat → Ctx → Ctx
deriving DecidableEq

/-- Mutable and immutable per-span state (struct Span in span.go).
Pointers to other spans are `Nat` allocation keys into the world; the
`annotations` slice is represented by the key `annArr` of its backing
array in the world's array heap, so that aliasing of returned slices can
be reasoned about. -/
structure SpanData where
  id : Nat
  start : Nat
  f : Nat
  trace : Nat
  parent : Option Nat
  args : List String
  ctx : Ctx
  done : Bool
  orphaned : Bool
  children : List Nat
  annArr : Nat
deriving DecidableEq

/-- Modelled from the spec: a Trace groups spans under one lineage and
supplies an optional observer (the Trace type is outside src/span.go).
`tid` is the integer id NewTrace was called with. -/
structure TraceData where
  tid : Nat
  observer : Option Nat
deriving DecidableEq

/-- Callbacks into Func, registry and observer code, in the order the Go
code issues them.  These model the external collaborators of §6 of the
spec, which are outside src/span.go: each constructor is one notification
call, carrying the arguments the Go code passes. -/
inductive Event where
  | observeTrace : Nat → Event
  | funcStart : Nat → Option Nat → Event
  | funcEnd : Nat → Option Nat → Bool → Nat → Event
  | rootSpanStart : Nat → Event
  | rootSpanEnd : Nat → Event
  | orphanedSpan : Nat → Event
  | orphanEnd : Nat → Event
  | observerStart : Nat → Nat → Event
  | observerFinish : Nat → Nat → Option Nat → Bool → Nat → Event
deriving DecidableEq

/-- One primitive step of an operation: acquiring or releasing a span's
spinLock (`s.mtx.Lock()` / `s.mtx.Unlock()`), or invoking an external
callback.  The spinLock itself is modelled from the spec as a mutual
exclusion primitive; what matters for the claims is *where* the code
locks, unlocks and calls out, which these traces record faithfully. -/
inductive Action where
  | lock : Nat → Action
  | unlock : Nat → Action
  | evt : Event → Action
deriving DecidableEq

/-- Association-list lookup by pointer key. -/
def look {α : Type} : List (Nat × α) → Nat → Option α
  | [], _ => none
  | (k, v) :: rest, p => if k = p then some v else look rest p

/-- Association-list update/insert by pointer key. -/
def upd {α : Type} : List (Nat × α) → Nat → α → List (Nat × α)
  | [], p, v => [(p, v)]
  | (k, x) :: rest, p, v => if k = p then (p, v) :: rest else (k, x) :: upd rest p v

theorem look_upd_self {α : Type} (l : List (Nat × α)) (p : Nat) (v : α) :
    look (upd l p v) p = some v := by
  induction l with
  | nil => simp [look, upd]
  | cons kv rest ih =>
    obtain ⟨k, x⟩ := kv
    by_cases h : k = p <;> simp [look, upd, h, ih]

theorem look_upd_ne {α : Type} (l : List (Nat × α)) (p q : Nat) (v : α) (h : q ≠ p) :
    look (upd l p v) q = look l q := by
  induction l with
  | nil => simp [look, upd, Ne.symm h]
  | cons kv rest ih =>
    obtain ⟨k, x⟩ := kv
    by_cases hk : k = p
    · subst hk
      simp [look, upd, Ne.symm h]
    · by_cases hq : k = q
      · subst hq
        simp [look, upd, hk, h, Ne.symm h]
      · simp [look, upd, hk, hq, ih]

/-- All keys of an association list are below the bound `n`. -/
def keysLt {α : Type} (l : List (Nat × α)) (n : Nat) : Bool :=
  l.all (fun kv => kv.1 < n)

theorem look_eq_none_of_keysLt {α : Type} (l : List (Nat × α)) (n p : Nat)
    (hk : keysLt l n = true) (hp : n ≤ p) : look l p = none := by
  induction l with
  | nil => simp [look]
  | cons kv rest ih =>
    obtain ⟨k, x⟩ := kv
    simp only [keysLt, List.all_cons, Bool.and_eq_true, decide_eq_true_eq] at hk
    have hne : k ≠ p := Nat.ne_of_lt (Nat.lt_of_lt_of_le hk.1 hp)
    have h2 : keysLt rest n = true := by
      simpa [keysLt] using hk.2
    simp [look, hne, ih h2]

/-- The global state: all spans ever allocated (keyed by pointer), all
traces (keyed by pointer), the heap of annotation-slice backing arrays
(keyed by array id), the three allocation counters, and a monotonic
clock standing in for monotime.Now(). -/
structure World where
  spans : List (Nat × SpanData)
  traces : List (Nat × TraceData)
  arrays : List (Nat × List Annotation)
  nextSpan : Nat
  nextTrace : Nat
  nextArr : Nat
  clock : Nat
deriving DecidableEq

/-- Lookup of a span by pointer. -/
def getSpan (w : World) (p : Nat) : Option SpanData := look w.spans p

/-- Store a span under a pointer. -/
def setSpan (w : World) (p : Nat) (d : SpanData) : World :=
  { w with spans := upd w.spans p d }

/-- Context lookup, embedding `Value` of each context form: a key/value
node answers for its own key and otherwise delegates; a span answers the
reserved `spanKey` with itself and otherwise delegates to the context it
wraps (func (s *Span) Value in span.go). -/
def ctxValue : Ctx → CtxKey → Option CtxVal
  | Ctx.empty, _ => none
  | Ctx.withValue parent k v, key => if key = k then some v else ctxValue parent key
  | Ctx.spanCtx p inner, key =>
    if key = CtxKey.spanKey then some (CtxVal.spanVal p) else ctxValue inner key

/-- func SpanFromCtx in span.go: if the context is itself a span return
it, else if its `spanKey` lookup yields a span return that, else none. -/
def SpanFromCtx (ctx : Ctx) : Option Nat :=
  match ctx with
  | Ctx.spanCtx p _ => some p
  | c =>
    match ctxValue c CtxKey.spanKey with
    | some (CtxVal.spanVal p) => some p
    | _ => none

/-- Modelled from the spec: the Child Set's `add` — identity-deduplicating
insert (spanBag.Add is outside src/span.go). -/
def bagAdd (l : List Nat) (c : Nat) : List Nat :=
  if c ∈ l then l else l ++ [c]

/-- Modelled from the spec: the Child Set's `remove` — delete by identity,
no-op when absent (spanBag.Remove is outside src/span.go). -/
def bagRemove (l : List Nat) (c : Nat) : List Nat :=
  l.filter (fun x => x ≠ c)

/-- func (s *Span) orphan in span.go: under the span's own lock, if not
already done and not already orphaned, set orphaned and report the new
orphan to the registry.  Note the registry callback happens *inside* the
locked region, exactly as in the source.  A dangling pointer (no such
span) is a no-op; it never arises in real executions. -/
def orphan (w : World) (p : Nat) : World × List Action :=
  match look w.spans p with
  | none => (w, [])
  | some d =>
    if !d.done && !d.orphaned then
      (setSpan w p { d with orphaned := true },
        [Action.lock p, Action.evt (Event.orphanedSpan p), Action.unlock p])
    else
      (w, [Action.lock p, Action.unlock p])

/-- func (s *Span) addChild in span.go: under the parent's lock add the
child to the child set and read the parent's done flag; after unlocking,
orphan the child if the parent was already done. -/
def addChild (w : World) (par c : Nat) : World × List Action :=
  match look w.spans par with
  | none => (w, [])
  | some d =>
    let w1 := setSpan w par { d with children := bagAdd d.children c }
    if d.done then
      let r := orphan w1 c
      (r.1, [Action.lock par, Action.unlock par] ++ r.2)
    else
      (w1, [Action.lock par, Action.unlock par])

/-- func (s *Span) removeChild in span.go: lock-protected removal from the
child set. -/
def removeChild (w : World) (par c : Nat) : World × List Action :=
  match look w.spans par with
  | none => (w, [])
  | some d =>
    (setSpan w par { d with children := bagRemove d.children c },
      [Action.lock par, Action.unlock par])

/-- Contents of the backing array of span `p`'s annotation slice. -/
def annContents (w : World) (p : Nat) : List Annotation :=
  match look w.spans p with
  | none => []
  | some d => (look w.arrays d.annArr).getD []

/-- func (s *Span) Annotate in span.go: lock-protected append of one
name/value pair to the span's annotation slice. -/
def Annotate (w : World) (p : Nat) (name val : String) : World × List Action :=
  match look w.spans p with
  | none => (w, [])
  | some d =>
    let newArrays := upd w.arrays d.annArr
      (((look w.arrays d.annArr).getD []) ++ [⟨name, val⟩])
    ({ w with arrays := newArrays }, [Action.lock p, Action.unlock p])

/-- func (s *Span) Annotations in span.go: read the slice header under the
lock, then copy its contents into a freshly allocated backing array
(`append([]Annotation(nil), annotations...)`) and return that fresh
slice.  Returns the new array's id alongside the new world. -/
def Annotations (w : World) (p : Nat) : World × Nat × List Action :=
  match look w.spans p with
  | none => (w, w.nextArr, [])
  | some d =>
    ({ w with
        arrays := upd w.arrays w.nextArr ((look w.arrays d.annArr).getD []),
        nextArr := w.nextArr + 1 },
      w.nextArr, [Action.lock p, Action.unlock p])

/-- External mutation of a slice previously handed out: writes index `i`
of backing array `arr` (what a caller could do to the value returned by
the annotations accessor).  Out-of-range writes and unknown arrays do
nothing. -/
def sliceWrite (w : World) (arr i : Nat) (v : Annotation) : World :=
  match look w.arrays arr with
  | none => w
  | some l =>
    if i < l.length then { w with arrays := upd w.arrays arr (l.set i v) } else w

/-- Modelled from the spec: the per-Trace observer registration point
(Trace.getObserver's backing field is outside src/span.go).  Registers or
replaces the observer of the trace at pointer `tp`. -/
def setObserver (w : World) (tp : Nat) (o : Option Nat) : World :=
  match look w.traces tp with
  | none => w
  | some t => { w with traces := upd w.traces tp { t with observer := o } }

/-- Modelled from the spec: Trace.getObserver — the trace's currently
registered observer, if any. -/
def getObserver (w : World) (tp : Nat) : Option Nat :=
  match look w.traces tp with
  | none => none
  | some t => t.observer

/-- What the exit closure returned by newSpan captures: the span pointer
and the observer resolved once at span start (the start time is kept in
the span itself). -/
structure ExitInfo where
  sp : Nat
  observer : Option Nat
deriving DecidableEq

/-- Result of newSpan: the world after the start protocol, the pointer of
the new span, the data captured by the exit closure, and the emitted
action trace. -/
structure StartRes where
  w : World
  sp : Nat
  info : ExitInfo
  acts : List Action
deriving DecidableEq

/-- Outcome of parent/trace resolution inside newSpan: the context stored
in the new span, the resolved parent pointer, the resolved trace pointer,
the world (a fresh trace may have been allocated) and the actions emitted
so far. -/
structure Resolved where
  storedCtx : Ctx
  parent : Option Nat
  tracePtr : Nat
  w : World
  acts : List Action
deriving DecidableEq

/-- The parent/trace resolution at the top of func newSpan in span.go:
if the context is itself a span, unwrap it; only when no explicit trace
was supplied does that span become the parent (inheriting its trace);
failing both context cases, a nil trace is replaced by a freshly minted
Trace reported via observeTrace.  A context span whose pointer dangles
contributes trace pointer 0; real executions never produce one. -/
def resolveSpan (w : World) (ctx : Ctx) (id : Nat) (traceArg : Option Nat) : Resolved :=
  match ctx with
  | Ctx.spanCtx sp inner =>
    match traceArg with
    | none =>
      { storedCtx := inner, parent := some sp,
        tracePtr := (match look w.spans sp with | some d => d.trace | none => 0),
        w := w, acts := [] }
    | some t =>
      { storedCtx := inner, parent := none, tracePtr := t, w := w, acts := [] }
  | c =>
    match ctxValue c CtxKey.spanKey with
    | some (CtxVal.spanVal sp) =>
      (match traceArg with
       | none =>
         { storedCtx := c, parent := some sp,
           tracePtr := (match look w.spans sp with | some d => d.trace | none => 0),
           w := w, acts := [] }
       | some t =>
         { storedCtx := c, parent := none, tracePtr := t, w := w, acts := [] })
    | _ =>
      match traceArg with
      | none =>
        { storedCtx := c, parent := none, tracePtr := w.nextTrace,
          w := { w with
            traces := upd w.traces w.nextTrace { tid := id, observer := none },
            nextTrace := w.nextTrace + 1 },
          acts := [Action.evt (Event.observeTrace w.nextTrace)] }
      | some t =>
        { storedCtx := c, parent := none, tracePtr := t, w := w, acts := [] }

/-- func newSpan in span.go, start half: resolve parent and trace, read
the trace's observer once, allocate the span (with a fresh empty
annotation array), notify the call-site Func (passing the parent's Func
when there is one), link into the parent via addChild or report a root
span start, and finally notify the observer if one was captured.  The
returned ExitInfo is what the Go exit closure captures. -/
def newSpan (w : World) (ctx : Ctx) (f : Nat) (args : List String) (id : Nat)
    (traceArg : Option Nat) : StartRes :=
  let res := resolveSpan w ctx id traceArg
  let w1 := res.w
  let observer := getObserver w1 res.tracePtr
  let sp := w1.nextSpan
  let d : SpanData :=
    { id := id, start := w1.clock, f := f, trace := res.tracePtr,
      parent := res.parent, args := args, ctx := res.storedCtx,
      done := false, orphaned := false, children := [], annArr := w1.nextArr }
  let w2 : World :=
    { w1 with
      spans := upd w1.spans sp d,
      arrays := upd w1.arrays w1.nextArr [],
      nextSpan := sp + 1,
      nextArr := w1.nextArr + 1,
      clock := w1.clock + 1 }
  match res.parent with
  | some par =>
    let pf := (match look w2.spans par with | some pd => some pd.f | none => none)
    let r := addChild w2 par sp
    { w := r.1, sp := sp, info := { sp := sp, observer := observer },
      acts := res.acts ++ [Action.evt (Event.funcStart f pf)] ++ r.2 ++
        (match observer with
         | some o => [Action.evt (Event.observerStart o sp)]
         | none => []) }
  | none =>
    { w := w2, sp := sp, info := { sp := sp, observer := observer },
      acts := res.acts ++
        [Action.evt (Event.funcStart f none), Action.evt (Event.rootSpanStart sp)] ++
        (match observer with
         | some o => [Action.evt (Event.observerStart o sp)]
         | none => []) }

/-- Orphan every span in the list in order, concatenating the traces
(the child loop of the exit closure). -/
def orphanAll (w : World) (l : List Nat) : World × List Action :=
  match l with
  | [] => (w, [])
  | c :: rest =>
    let r := orphan w c
    let r2 := orphanAll r.1 rest
    (r2.1, r.2 ++ r2.2)

/-- Result of running the exit closure: new world, emitted actions, and
the panic value re-raised to the caller (none when no panic was
propagating). -/
structure ExitRes where
  w : World
  acts : List Action
  panicOut : Option Nat
deriving DecidableEq

/-- The value at the caller's error slot: `errptr` is none for a nil
pointer, otherwise it points at an optional error value. -/
def derefErr (errptr : Option (Option Nat)) : Option Nat :=
  match errptr with
  | none => none
  | some e => e

/-- The exit closure returned by func newSpan in span.go: recover a
propagating panic; report end to the Func with error, panicked flag and
duration; under the lock set done, capture orphaned and snapshot the
children; after unlocking orphan every snapshotted child; then either
remove self from the parent (reporting orphanEnd when the captured
orphaned flag was set) or report rootSpanEnd; notify the captured
observer; finally re-raise the recovered panic value unchanged. -/
def runExit (w : World) (info : ExitInfo) (errptr : Option (Option Nat))
    (rec : Option Nat) : ExitRes :=
  let panicked := rec.isSome
  let err := derefErr errptr
  match look w.spans info.sp with
  | none => { w := w, acts := [], panicOut := rec }
  | some d =>
    let finish := w.clock
    let w0 := { w with clock := w.clock + 1 }
    let a1 := [Action.evt (Event.funcEnd d.f err panicked (finish - d.start))]
    let w1 := setSpan w0 info.sp { d with done := true }
    let orphaned := d.orphaned
    let a2 := [Action.lock info.sp, Action.unlock info.sp]
    let r3 := orphanAll w1 d.children
    let r4 : World × List Action :=
      match d.parent with
      | some par =>
        let rr := removeChild r3.1 par info.sp
        (rr.1, rr.2 ++ (if orphaned then [Action.evt (Event.orphanEnd info.sp)] else []))
      | none => (r3.1, [Action.evt (Event.rootSpanEnd info.sp)])
    let a5 :=
      match info.observer with
      | some o => [Action.evt (Event.observerFinish o info.sp err panicked finish)]
      | none => []
    { w := r4.1, acts := a1 ++ a2 ++ r3.2 ++ r4.2 ++ a5, panicOut := rec }

/-- func (s *Span) Value in span.go, on the span at pointer `p`: the
reserved span key answers with the span itself, anything else delegates
to the wrapped ambient context. -/
def Value (w : World) (p : Nat) (key : CtxKey) : Option CtxVal :=
  if key = CtxKey.spanKey then some (CtxVal.spanVal p)
  else
    match look w.spans p with
    | none => none
    | some d => ctxValue d.ctx key

/-- First-occurrence deduplication, as done by the `found` map in func
(s *Span) Children. -/
def dedup (l : List Nat) : List Nat :=
  l.foldl (fun acc x => if x ∈ acc then acc else acc ++ [x]) []

/-- Modelled from the spec: the Child Ordering comparator — start
timestamp ascending, ties broken by id ascending (spanSorter is outside
src/span.go).  Missing spans sort first. -/
def spanKeyLe (w : World) (a b : Nat) : Bool :=
  let key := fun x =>
    match look w.spans x with
    | some d => (d.start, d.id)
    | none => (0, 0)
  let ka := key a
  let kb := key b
  decide (ka.1 < kb.1 ∨ (ka.1 = kb.1 ∧ ka.2 ≤ kb.2))

/-- Insertion into a sorted list under `spanKeyLe`. -/
def insertSpan (w : World) (a : Nat) : List Nat → List Nat
  | [] => [a]
  | b :: rest => if spanKeyLe w a b then a :: b :: rest else b :: insertSpan w a rest

/-- Stable sort of a child snapshot under `spanKeyLe`. -/
def sortSpans (w : World) (l : List Nat) : List Nat :=
  l.foldr (insertSpan w) []

/-- func (s *Span) Children in span.go: lock-protected deduplicated
snapshot of the child set, sorted outside the lock; the callback is then
invoked per child (caller code, outside the lock). -/
def Children (w : World) (p : Nat) : List Nat × List Action :=
  match look w.spans p with
  | none => ([], [])
  | some d => (sortSpans w (dedup d.children), [Action.lock p, Action.unlock p])

/-- func (s *Span) Orphaned in span.go: lock-protected read of the
orphaned flag. -/
def Orphaned (w : World) (p : Nat) : Bool × List Action :=
  match look w.spans p with
  | none => (false, [])
  | some d => (d.orphaned, [Action.lock p, Action.unlock p])

/-- Every operation of the core that touches a world, as one enumeration
so that global invariants (flag monotonicity, lock discipline) can be
stated over all of them at once.  `sliceWriteOp` is not a core operation:
it models a caller mutating a slice the annotations accessor returned. -/
inductive Op where
  | startOp : Ctx → Nat → List String → Nat → Option Nat → Op
  | exitOp : ExitInfo → Option (Option Nat) → Option Nat → Op
  | orphanOp : Nat → Op
  | addChildOp : Nat → Nat → Op
  | removeChildOp : Nat → Nat → Op
  | annotateOp : Nat → String → String → Op
  | annotationsOp : Nat → Op
  | childrenOp : Nat → Op
  | orphanedOp : Nat → Op
  | setObserverOp : Nat → Option Nat → Op
  | sliceWriteOp : Nat → Nat → Annotation → Op
deriving DecidableEq

/-- Apply one operation to the world, returning the new world and the
emitted action trace. -/
def step (w : World) (op : Op) : World × List Action :=
  match op with
  | Op.startOp ctx f args id tr =>
    let r := newSpan w ctx f args id tr
    (r.w, r.acts)
  | Op.exitOp info errptr rec =>
    let r := runExit w info errptr rec
    (r.w, r.acts)
  | Op.orphanOp p => orphan w p
  | Op.addChildOp par c => addChild w par c
  | Op.removeChildOp par c => removeChild w par c
  | Op.annotateOp p n v => Annotate w p n v
  | Op.annotationsOp p =>
    let r := Annotations w p
    (r.1, r.2.2)
  | Op.childrenOp p => (w, (Children w p).2)
  | Op.orphanedOp p => (w, (Orphaned w p).2)
  | Op.setObserverOp tp o => (setObserver w tp o, [])
  | Op.sliceWriteOp arr i v => (sliceWrite w arr i v, [])

/-- Strict lock-discipline check: walk an action trace tracking the held
locks; a lock may only be taken with none held, an unlock must release
the single held lock, and *no* callback may fire while a lock is held.
Returns the final held set, or none on a violation. -/
def chkStrict : List Nat → List Action → Option (List Nat)
  | held, [] => some held
  | held, Action.lock p :: rest => if held = [] then chkStrict [p] rest else none
  | held, Action.unlock p :: rest => if held = [p] then chkStrict [] rest else none
  | held, Action.evt _ :: rest => if held = [] then chkStrict held rest else none

/-- A trace obeys the strict discipline: it runs without violation and
ends with every lock released. -/
def locksOk (as : List Action) : Bool :=
  decide (chkStrict [] as = some [])

/-- Whether a callback is permitted under the given held set in the
relaxed discipline: anything with no lock held, and the orphanedSpan
registry notification while exactly the orphaned span's own lock is
held. -/
def allowedEvt : List Nat → Event → Bool
  | [], _ => true
  | [c], Event.orphanedSpan p => c = p
  | _, _ => false

/-- Relaxed lock-discipline check: like `chkStrict` but permitting the
callbacks `allowedEvt` allows under a held lock. -/
def chkRelaxed : List Nat → List Action → Option (List Nat)
  | held, [] => some held
  | held, Action.lock p :: rest => if held = [] then chkRelaxed [p] rest else none
  | held, Action.unlock p :: rest => if held = [p] then chkRelaxed [] rest else none
  | held, Action.evt e :: rest => if allowedEvt held e then chkRelaxed held rest else none

/-- A trace obeys the relaxed discipline. -/
def locksOkRelaxed (as : List Action) : Bool :=
  decide (chkRelaxed [] as = some [])

/-- Well-formed world: every allocated pointer is below its allocation
counter, and every span's annotation array is an allocated array id. -/
def WF (w : World) : Bool :=
  keysLt w.spans w.nextSpan && keysLt w.traces w.nextTrace &&
    keysLt w.arrays w.nextArr &&
    w.spans.all (fun kv => kv.2.annArr < w.nextArr)

/-- Flag ordering on span data: `done` and `orphaned` may only go from
false to true. -/
def flagLe (d d' : SpanData) : Prop :=
  (d.done = true → d'.done = true) ∧ (d.orphaned = true → d'.orphaned = true)

/-- World evolution that never loses a span and never resets a flag. -/
def monoW (w w' : World) : Prop :=
  ∀ p d, look w.spans p = some d →
    ∃ d', look w'.spans p = some d' ∧ flagLe d d'

theorem flagLe_refl (d : SpanData) : flagLe d d := ⟨fun h => h, fun h => h⟩

theorem monoW_refl (w : World) : monoW w w :=
  fun _ d h => ⟨d, h, flagLe_refl d⟩

theorem monoW_trans {w1 w2 w3 : World} (h12 : monoW w1 w2) (h23 : monoW w2 w3) :
    monoW w1 w3 := by
  intro p d h
  obtain ⟨d2, h2, le2⟩ := h12 p d h
  obtain ⟨d3, h3, le3⟩ := h23 p d2 h2
  exact ⟨d3, h3, fun h => le3.1 (le2.1 h), fun h => le3.2 (le2.2 h)⟩

theorem monoW_of_spans_eq {w w' : World} (h : w'.spans = w.spans) : monoW w w' := by
  intro p d hd
  exact ⟨d, h ▸ hd, flagLe_refl d⟩

theorem monoW_setSpan {w : World} {p : Nat} {d d' : SpanData}
    (hd : look w.spans p = some d) (hle : flagLe d d') :
    monoW w (setSpan w p d') := by
  intro q dq hq
  by_cases hqp : q = p
  · subst hqp
    refine ⟨d', ?_, ?_⟩
    · simp [setSpan, look_upd_self]
    · rw [hd] at hq
      cases hq
      exact hle
  · exact ⟨dq, by simpa [setSpan, look_upd_ne _ _ _ _ hqp] using hq, flagLe_refl dq⟩

theorem orphan_world (w : World) (p : Nat) :
    (orphan w p).1 = w ∨
      ∃ d, look w.spans p = some d ∧ d.done = false ∧ d.orphaned = false ∧
        (orphan w p).1 = setSpan w p { d with orphaned := true } := by
  unfold orphan
  cases hd : look w.spans p with
  | none => exact Or.inl rfl
  | some d =>
    by_cases hdn : !d.done && !d.orphaned
    · refine Or.inr ⟨d, rfl, ?_, ?_, ?_⟩ <;>
        simp_all [Bool.and_eq_true, Bool.not_eq_true']
    · simp [hdn]

theorem monoW_orphan (w : World) (p : Nat) : monoW w (orphan w p).1 := by
  rcases orphan_world w p with h | ⟨d, hd, _, _, h⟩
  · rw [h]; exact monoW_refl w
  · rw [h]
    exact monoW_setSpan hd ⟨fun h => h, by simp⟩

/-- Looking up any other span is unaffected by orphaning `p`. -/
theorem orphan_look_ne (w : World) (p q : Nat) (h : q ≠ p) :
    look (orphan w p).1.spans q = look w.spans q := by
  rcases orphan_world w p with hw | ⟨d, _, _, _, hw⟩ <;>
    simp [hw, setSpan, look_upd_ne _ _ _ _ h]

/-- The state of `p` after orphaning it: the orphaned flag absorbs
`!done`, everything else is unchanged. -/
theorem orphan_look_self (w : World) (p : Nat) (d : SpanData)
    (hd : look w.spans p = some d) :
    look (orphan w p).1.spans p = some { d with orphaned := d.orphaned || !d.done } := by
  obtain ⟨id, start, f, trace, parent, args, ctx, done, orphaned, children, annArr⟩ := d
  unfold orphan
  rw [hd]
  cases done <;> cases orphaned <;> simp [hd, setSpan, look_upd_self]

/-- Orphaning touches only the spans component of the world. -/
theorem orphan_rest (w : World) (p : Nat) :
    (orphan w p).1.traces = w.traces ∧ (orphan w p).1.arrays = w.arrays ∧
      (orphan w p).1.nextSpan = w.nextSpan ∧ (orphan w p).1.nextTrace = w.nextTrace ∧
      (orphan w p).1.nextArr = w.nextArr ∧ (orphan w p).1.clock = w.clock := by
  rcases orphan_world w p with hw | ⟨d, _, _, _, hw⟩ <;> simp [hw, setSpan]

/-- The trace of an orphan call: the notification fires exactly when the
span existed, was not done and not yet orphaned. -/
theorem orphan_evt (w : World) (p : Nat) (d : SpanData) (hd : look w.spans p = some d) :
    (Action.evt (Event.orphanedSpan p) ∈ (orphan w p).2 ↔
      d.done = false ∧ d.orphaned = false) := by
  unfold orphan
  rw [hd]
  by_cases h1 : d.done <;> by_cases h2 : d.orphaned <;>
    simp [h1, h2, Bool.not_eq_true']

theorem monoW_orphanAll (w : World) (l : List Nat) : monoW w (orphanAll w l).1 := by
  induction l generalizing w with
  | nil => simpa [orphanAll] using monoW_refl w
  | cons a rest ih =>
    simp only [orphanAll]
    exact monoW_trans (monoW_orphan w a) (ih (orphan w a).1)

theorem orphanAll_look_notmem (w : World) (l : List Nat) (c : Nat) (hc : c ∉ l) :
    look (orphanAll w l).1.spans c = look w.spans c := by
  induction l generalizing w with
  | nil => simp [orphanAll]
  | cons a rest ih =>
    simp only [orphanAll]
    have hca : c ≠ a := fun h => hc (h ▸ List.mem_cons_self a rest)
    have hcr : c ∉ rest := fun h => hc (List.mem_cons_of_mem a h)
    rw [ih (orphan w a).1 hcr, orphan_look_ne w a c hca]

theorem orphanAll_look_mem (w : World) (l : List Nat) (c : Nat) (dc : SpanData)
    (hc : c ∈ l) (hd : look w.spans c = some dc) :
    look (orphanAll w l).1.spans c =
      some { dc with orphaned := dc.orphaned || !dc.done } := by
  induction l generalizing w dc with
  | nil => cases hc
  | cons a rest ih =>
    simp only [orphanAll]
    by_cases hca : c = a
    · subst hca
      have hself := orphan_look_self w c dc hd
      by_cases hcr : c ∈ rest
      · rw [ih (orphan w c).1 _ hcr hself]
        simp [Bool.or_assoc]
      · rw [orphanAll_look_notmem _ rest c hcr, hself]
    · have hcr : c ∈ rest := by
        cases hc with
        | head => exact absurd rfl hca
        | tail _ h => exact h
      have : look (orphan w a).1.spans c = some dc := by
        rw [orphan_look_ne w a c hca, hd]
      exact ih (orphan w a).1 dc hcr this

theorem orphanAll_evt (w : World) (l : List Nat) (c : Nat) (dc : SpanData)
    (hc : c ∈ l) (hd : look w.spans c = some dc)
    (h1 : dc.done = false) (h2 : dc.orphaned = false) :
    Action.evt (Event.orphanedSpan c) ∈ (orphanAll w l).2 := by
  induction l generalizing w dc with
  | nil => cases hc
  | cons a rest ih =>
    simp only [orphanAll, List.mem_append]
    by_cases hca : c = a
    · subst hca
      exact Or.inl ((orphan_evt w c dc hd).2 ⟨h1, h2⟩)
    · have hcr : c ∈ rest := by
        cases hc with
        | head => exact absurd rfl hca
        | tail _ h => exact h
      have hlook : look (orphan w a).1.spans c = some dc := by
        rw [orphan_look_ne w a c hca, hd]
      exact Or.inr (ih (orphan w a).1 dc hcr hlook h1 h2)

theorem orphanAll_rest (w : World) (l : List Nat) :
    (orphanAll w l).1.traces = w.traces ∧ (orphanAll w l).1.arrays = w.arrays ∧
      (orphanAll w l).1.nextSpan = w.nextSpan ∧
      (orphanAll w l).1.nextTrace = w.nextTrace ∧
      (orphanAll w l).1.nextArr = w.nextArr ∧ (orphanAll w l).1.clock = w.clock := by
  induction l generalizing w with
  | nil => simp [orphanAll]
  | cons a rest ih =>
    simp only [orphanAll]
    have ho := orphan_rest w a
    have hr := ih (orphan w a).1
    exact ⟨hr.1.trans ho.1, hr.2.1.trans ho.2.1, hr.2.2.1.trans ho.2.2.1,
      hr.2.2.2.1.trans ho.2.2.2.1, hr.2.2.2.2.1.trans ho.2.2.2.2.1,
      hr.2.2.2.2.2.trans ho.2.2.2.2.2⟩

theorem look_lt_of_keysLt {α : Type} (l : List (Nat × α)) (n p : Nat) (v : α)
    (hk : keysLt l n = true) (hp : look l p = some v) : p < n := by
  induction l with
  | nil => simp [look] at hp
  | cons kv rest ih =>
    obtain ⟨k, x⟩ := kv
    simp only [keysLt, List.all_cons, Bool.and_eq_true, decide_eq_true_eq] at hk
    by_cases hkp : k = p
    · exact hkp ▸ hk.1
    · simp only [look, hkp, if_false] at hp
      exact ih (by simpa [keysLt] using hk.2) hp

theorem monoW_addChild (w : World) (par c : Nat) : monoW w (addChild w par c).1 := by
  unfold addChild
  cases hd : look w.spans par with
  | none => exact monoW_refl w
  | some d =>
    dsimp only
    split
    · exact monoW_trans
        (@monoW_setSpan w par d { d with children := bagAdd d.children c } hd
          ⟨fun h => h, fun h => h⟩)
        (monoW_orphan _ c)
    · exact @monoW_setSpan w par d { d with children := bagAdd d.children c } hd
        ⟨fun h => h, fun h => h⟩

/-- The parent's entry after addChild: the child set has grown by the
child, all else unchanged (the possible orphan call touches only the
child, which is a different span). -/
theorem addChild_look_parent (w : World) (par c : Nat) (d : SpanData)
    (hd : look w.spans par = some d) (hne : c ≠ par) :
    look (addChild w par c).1.spans par =
      some { d with children := bagAdd d.children c } := by
  unfold addChild
  rw [hd]
  dsimp only
  split
  · rw [orphan_look_ne _ c par (fun h => hne h.symm)]
    simp [setSpan, look_upd_self]
  · simp [setSpan, look_upd_self]

/-- The child's entry after addChild: orphaned exactly when the parent
was already done and the child was live. -/
theorem addChild_look_child (w : World) (par c : Nat) (d dc : SpanData)
    (hd : look w.spans par = some d) (hdc : look w.spans c = some dc) (hne : c ≠ par) :
    look (addChild w par c).1.spans c =
      some (if d.done then { dc with orphaned := dc.orphaned || !dc.done } else dc) := by
  unfold addChild
  rw [hd]
  dsimp only
  have hdc1 : look (setSpan w par { d with children := bagAdd d.children c }).spans c =
      some dc := by
    simp [setSpan, look_upd_ne _ _ _ _ hne, hdc]
  by_cases hdn : d.done = true
  · rw [if_pos hdn, if_pos hdn]
    exact orphan_look_self _ c dc hdc1
  · rw [if_neg hdn, if_neg hdn]
    exact hdc1

/-- The trace of addChild when the parent was already done and the child
still live: the child's orphanedSpan notification fires. -/
theorem addChild_evt (w : World) (par c : Nat) (d dc : SpanData)
    (hd : look w.spans par = some d) (hdc : look w.spans c = some dc) (hne : c ≠ par)
    (hdone : d.done = true) (h1 : dc.done = false) (h2 : dc.orphaned = false) :
    Action.evt (Event.orphanedSpan c) ∈ (addChild w par c).2 := by
  unfold addChild
  rw [hd]
  dsimp only
  rw [if_pos hdone]
  simp only [List.mem_append]
  refine Or.inr ?_
  have hdc1 : look (setSpan w par { d with children := bagAdd d.children c }).spans c =
      some dc := by
    simp [setSpan, look_upd_ne _ _ _ _ hne, hdc]
  exact (orphan_evt _ c dc hdc1).2 ⟨h1, h2⟩

theorem monoW_removeChild (w : World) (par c : Nat) : monoW w (removeChild w par c).1 := by
  unfold removeChild
  cases hd : look w.spans par with
  | none => exact monoW_refl w
  | some d => exact monoW_setSpan hd ⟨fun h => h, fun h => h⟩

theorem removeChild_look_parent (w : World) (par c : Nat) (d : SpanData)
    (hd : look w.spans par = some d) :
    look (removeChild w par c).1.spans par =
      some { d with children := bagRemove d.children c } := by
  unfold removeChild
  rw [hd]
  simp [setSpan, look_upd_self]

theorem removeChild_look_ne (w : World) (par c q : Nat) (h : q ≠ par) :
    look (removeChild w par c).1.spans q = look w.spans q := by
  unfold removeChild
  cases hd : look w.spans par with
  | none => rfl
  | some d => simp [setSpan, look_upd_ne _ _ _ _ h]

/-- removeChild emits no events at all. -/
theorem removeChild_no_evt (w : World) (par c : Nat) (e : Event) :
    Action.evt e ∉ (removeChild w par c).2 := by
  unfold removeChild
  cases look w.spans par with
  | none => simp
  | some d => simp

theorem Annotate_spans (w : World) (p : Nat) (n v : String) :
    (Annotate w p n v).1.spans = w.spans := by
  unfold Annotate
  cases look w.spans p <;> rfl

theorem Annotations_spans (w : World) (p : Nat) :
    (Annotations w p).1.spans = w.spans := by
  unfold Annotations
  cases look w.spans p <;> rfl

theorem setObserver_spans (w : World) (tp : Nat) (o : Option Nat) :
    (setObserver w tp o).spans = w.spans := by
  unfold setObserver
  cases look w.traces tp <;> rfl

theorem sliceWrite_spans (w : World) (arr i : Nat) (v : Annotation) :
    (sliceWrite w arr i v).spans = w.spans := by
  unfold sliceWrite
  cases look w.arrays arr with
  | none => rfl
  | some l =>
    by_cases h : i < l.length <;> simp [h]

/-- Parent/trace resolution touches neither the spans nor the arrays nor
the span/array allocation counters nor the clock. -/
theorem resolveSpan_rest (w : World) (ctx : Ctx) (id : Nat) (traceArg : Option Nat) :
    (resolveSpan w ctx id traceArg).w.spans = w.spans ∧
      (resolveSpan w ctx id traceArg).w.nextSpan = w.nextSpan ∧
      (resolveSpan w ctx id traceArg).w.arrays = w.arrays ∧
      (resolveSpan w ctx id traceArg).w.nextArr = w.nextArr ∧
      (resolveSpan w ctx id traceArg).w.clock = w.clock := by
  unfold resolveSpan
  cases ctx <;> cases traceArg <;> dsimp only <;>
    first
    | exact ⟨rfl, rfl, rfl, rfl, rfl⟩
    | (split <;> exact ⟨rfl, rfl, rfl, rfl, rfl⟩)

theorem monoW_runExit (w : World) (info : ExitInfo) (errptr : Option (Option Nat))
    (rec : Option Nat) : monoW w (runExit w info errptr rec).w := by
  unfold runExit
  cases hd : look w.spans info.sp with
  | none => exact monoW_refl w
  | some d =>
    obtain ⟨did, dstart, df, dtrace, dparent, dargs, dctx, ddone, dorph, dch, dann⟩ := d
    cases dparent with
    | some par =>
      dsimp only
      have h0 : monoW w { w with clock := w.clock + 1 } := monoW_of_spans_eq rfl
      have h1 := @monoW_setSpan { w with clock := w.clock + 1 } info.sp
        ⟨did, dstart, df, dtrace, some par, dargs, dctx, ddone, dorph, dch, dann⟩
        ⟨did, dstart, df, dtrace, some par, dargs, dctx, true, dorph, dch, dann⟩
        hd ⟨fun _ => rfl, fun h => h⟩
      have h2 := monoW_orphanAll
        (setSpan { w with clock := w.clock + 1 } info.sp
          ⟨did, dstart, df, dtrace, some par, dargs, dctx, true, dorph, dch, dann⟩) dch
      exact monoW_trans (monoW_trans (monoW_trans h0 h1) h2)
        (monoW_removeChild _ par info.sp)
    | none =>
      dsimp only
      have h0 : monoW w { w with clock := w.clock + 1 } := monoW_of_spans_eq rfl
      have h1 := @monoW_setSpan { w with clock := w.clock + 1 } info.sp
        ⟨did, dstart, df, dtrace, none, dargs, dctx, ddone, dorph, dch, dann⟩
        ⟨did, dstart, df, dtrace, none, dargs, dctx, true, dorph, dch, dann⟩
        hd ⟨fun _ => rfl, fun h => h⟩
      have h2 := monoW_orphanAll
        (setSpan { w with clock := w.clock + 1 } info.sp
          ⟨did, dstart, df, dtrace, none, dargs, dctx, true, dorph, dch, dann⟩) dch
      exact monoW_trans (monoW_trans h0 h1) h2

theorem monoW_newSpan (w : World) (ctx : Ctx) (f : Nat) (args : List String)
    (id : Nat) (traceArg : Option Nat) (hWF : WF w = true) :
    monoW w (newSpan w ctx f args id traceArg).w := by
  have hres := resolveSpan_rest w ctx id traceArg
  have hkeys : keysLt w.spans w.nextSpan = true := by
    simp only [WF, Bool.and_eq_true] at hWF
    exact hWF.1.1.1
  unfold newSpan
  dsimp only
  have hmono2 : ∀ (wmid : World) (pp : Option Nat),
      wmid.spans = upd (resolveSpan w ctx id traceArg).w.spans
        (resolveSpan w ctx id traceArg).w.nextSpan
        { id := id, start := (resolveSpan w ctx id traceArg).w.clock, f := f,
          trace := (resolveSpan w ctx id traceArg).tracePtr,
          parent := pp, args := args,
          ctx := (resolveSpan w ctx id traceArg).storedCtx,
          done := false, orphaned := false, children := [],
          annArr := (resolveSpan w ctx id traceArg).w.nextArr } →
      monoW w wmid := by
    intro wmid pp hsp
    intro p dp hdp
    have hplt : p < w.nextSpan := look_lt_of_keysLt w.spans w.nextSpan p dp hkeys hdp
    have hne : p ≠ (resolveSpan w ctx id traceArg).w.nextSpan := by
      rw [hres.2.1]
      exact Nat.ne_of_lt hplt
    refine ⟨dp, ?_, flagLe_refl dp⟩
    rw [hsp, look_upd_ne _ _ _ _ hne, hres.1, hdp]
  cases hpar : (resolveSpan w ctx id traceArg).parent with
  | some par =>
    dsimp only
    exact monoW_trans (hmono2 _ (some par) rfl) (monoW_addChild _ par _)
  | none =>
    dsimp only
    exact hmono2 _ none rfl

/-- Flag monotonicity of one step of any operation. -/
theorem monoW_step (w : World) (op : Op) (hWF : WF w = true) :
    monoW w (step w op).1 := by
  cases op with
  | startOp ctx f args id tr => exact monoW_newSpan w ctx f args id tr hWF
  | exitOp info errptr rec => exact monoW_runExit w info errptr rec
  | orphanOp p => exact monoW_orphan w p
  | addChildOp par c => exact monoW_addChild w par c
  | removeChildOp par c => exact monoW_removeChild w par c
  | annotateOp p n v => exact monoW_of_spans_eq (Annotate_spans w p n v)
  | annotationsOp p => exact monoW_of_spans_eq (Annotations_spans w p)
  | childrenOp p => exact monoW_refl w
  | orphanedOp p => exact monoW_refl w
  | setObserverOp tp o => exact monoW_of_spans_eq (setObserver_spans w tp o)
  | sliceWriteOp arr i v => exact monoW_of_spans_eq (sliceWrite_spans w arr i v)

theorem mem_bagAdd_self (l : List Nat) (c : Nat) : c ∈ bagAdd l c := by
  unfold bagAdd
  by_cases h : c ∈ l <;> simp [h]

/-- Repeated orphan calls on the same span, concatenating the traces. -/
def orphanN (w : World) (p : Nat) : Nat → World × List Action
  | 0 => (w, [])
  | k + 1 =>
    let r := orphan w p
    let r2 := orphanN r.1 p k
    (r2.1, r.2 ++ r2.2)

/-- Number of orphanedSpan notifications for span `p` in a trace. -/
def countOrph (p : Nat) (as : List Action) : Nat :=
  as.countP (fun a => decide (a = Action.evt (Event.orphanedSpan p)))

theorem orphan_count (w : World) (p : Nat) (d : SpanData) (hd : look w.spans p = some d) :
    countOrph p (orphan w p).2 =
      if d.done = false ∧ d.orphaned = false then 1 else 0 := by
  unfold orphan
  rw [hd]
  by_cases h1 : d.done <;> by_cases h2 : d.orphaned <;>
    simp [h1, h2, countOrph, Bool.not_eq_true']

theorem countOrph_append (p : Nat) (as bs : List Action) :
    countOrph p (as ++ bs) = countOrph p as + countOrph p bs := by
  simp [countOrph, List.countP_append]

/-- The empty initial world. -/
def w0 : World := ⟨[], [], [], 0, 0, 0, 0⟩

/-- A world holding one live root span at pointer 0 (with its freshly
minted trace at pointer 0): the result of starting a root span in the
empty world. -/
def wRoot : World := (newSpan w0 Ctx.empty 1 [] 100 none).w

/-- The span data of the live root span of `wRoot`. -/
def rootData : SpanData :=
  ⟨100, 0, 1, 0, none, [], Ctx.empty, false, false, [], 0⟩

/-- C6: for every span, the `done` and `orphaned` flags are monotonic —
no operation of the core (start, the finish procedure, orphan, addChild,
removeChild, annotate, or any accessor, plus observer registration and
external slice writes) ever resets either flag to false once it has
become true. -/
theorem claim_C6_flags_monotonic (w : World) (op : Op) (p : Nat) (d : SpanData)
    (hWF : WF w = true) (hd : look w.spans p = some d) :
    ∃ d', look (step w op).1.spans p = some d' ∧
      (d.done = true → d'.done = true) ∧ (d.orphaned = true → d'.orphaned = true) :=
  monoW_step w op hWF p d hd

theorem claim_C6_witness :
    WF wRoot = true ∧ look wRoot.spans 0 = some rootData ∧
      ∃ d', look (step wRoot (Op.orphanOp 0)).1.spans 0 = some d' ∧
        (rootData.done = true → d'.done = true) ∧
        (rootData.orphaned = true → d'.orphaned = true) :=
  ⟨by decide, by decide,
    claim_C6_flags_monotonic wRoot (Op.orphanOp 0) 0 rootData (by decide) (by decide)⟩

/-- C3: orphan is idempotent and emits at most one orphanedSpan
notification per span: over any number `k` of successive orphan calls,
exactly one notification fires when the span was live (not done, not yet
orphaned) and `k ≥ 1`, and none otherwise (in particular none after the
span's own finish has set done); the final state has the orphaned flag
set exactly when it was already set or the span was live at the first
call, and the done flag is untouched. -/
theorem claim_C3_orphan_once (w : World) (p : Nat) (d : SpanData) (k : Nat)
    (hd : look w.spans p = some d) :
    countOrph p (orphanN w p k).2 =
      (if d.done = false ∧ d.orphaned = false ∧ 0 < k then 1 else 0) ∧
    ∃ d', look (orphanN w p k).1.spans p = some d' ∧
      d'.done = d.done ∧
      d'.orphaned = (d.orphaned || (!d.done && decide (0 < k))) := by
  induction k generalizing w d with
  | zero =>
    refine ⟨by simp [orphanN, countOrph], d, by simpa [orphanN] using hd, rfl, by simp⟩
  | succ k ih =>
    have hself := orphan_look_self w p d hd
    obtain ⟨ihc, d', hd', hdone', horph'⟩ := ih (orphan w p).1 _ hself
    constructor
    · show countOrph p ((orphan w p).2 ++ (orphanN (orphan w p).1 p k).2) = _
      rw [countOrph_append, orphan_count w p d hd, ihc]
      cases h1 : d.done <;> cases h2 : d.orphaned <;> simp
    · refine ⟨d', hd', by simpa using hdone', ?_⟩
      rw [horph']
      cases h1 : d.done <;> cases h2 : d.orphaned <;> simp

theorem claim_C3_witness :
    look wRoot.spans 0 = some rootData ∧
      (countOrph 0 (orphanN wRoot 0 3).2 =
        (if rootData.done = false ∧ rootData.orphaned = false ∧ 0 < 3 then 1 else 0) ∧
      ∃ d', look (orphanN wRoot 0 3).1.spans 0 = some d' ∧
        d'.done = rootData.done ∧
        d'.orphaned = (rootData.orphaned || (!rootData.done && decide (0 < 3)))) :=
  ⟨by decide, claim_C3_orphan_once wRoot 0 rootData 3 (by decide)⟩

/-- C4: addChild inserts the child into the parent's child set and then
re-checks the parent's done flag; when the parent is already done, a
still-live child is immediately orphaned (flag set and orphanedSpan
notification emitted) rather than silently attached to a dead parent. -/
theorem claim_C4_addChild (w : World) (par c : Nat) (d dc : SpanData)
    (hd : look w.spans par = some d) (hdc : look w.spans c = some dc) (hne : c ≠ par) :
    (∃ dp', look (addChild w par c).1.spans par = some dp' ∧ c ∈ dp'.children) ∧
    (d.done = true → dc.done = false → dc.orphaned = false →
      (∃ dc', look (addChild w par c).1.spans c = some dc' ∧ dc'.orphaned = true) ∧
      Action.evt (Event.orphanedSpan c) ∈ (addChild w par c).2) := by
  constructor
  · exact ⟨{ d with children := bagAdd d.children c },
      addChild_look_parent w par c d hd hne, mem_bagAdd_self d.children c⟩
  · intro hdone h1 h2
    constructor
    · refine ⟨_, addChild_look_child w par c d dc hd hdc hne, ?_⟩
      simp [hdone, h1, h2]
    · exact addChild_evt w par c d dc hd hdc hne hdone h1 h2

/-- A world where root span 0 has already finished and a second live
root span 1 exists: span 0 started in the empty world, finished, and
then span 1 started. -/
def wTwo : World :=
  (newSpan (runExit wRoot ⟨0, none⟩ none none).w Ctx.empty 2 [] 101 none).w

/-- The finished root span of `wTwo`. -/
def doneData : SpanData :=
  ⟨100, 0, 1, 0, none, [], Ctx.empty, true, false, [], 0⟩

/-- The live second span of `wTwo`. -/
def liveData : SpanData :=
  ⟨101, 2, 2, 1, none, [], Ctx.empty, false, false, [], 1⟩

theorem claim_C4_witness :
    look wTwo.spans 0 = some doneData ∧ look wTwo.spans 1 = some liveData ∧
      ((∃ dp', look (addChild wTwo 0 1).1.spans 0 = some dp' ∧ 1 ∈ dp'.children) ∧
      (doneData.done = true → liveData.done = false → liveData.orphaned = false →
        (∃ dc', look (addChild wTwo 0 1).1.spans 1 = some dc' ∧ dc'.orphaned = true) ∧
        Action.evt (Event.orphanedSpan 1) ∈ (addChild wTwo 0 1).2)) :=
  ⟨by decide, by decide,
    claim_C4_addChild wTwo 0 1 doneData liveData (by decide) (by decide) (by decide)⟩

/-- C8: looking up the reserved span key on a span (via its Value method
or on the span used as a context) yields the span itself, any other key
delegates to the ambient context the span wraps, the round trip
SpanFromCtx on a span-as-context returns that span, and SpanFromCtx
recovers the span stored under the reserved key from any context that
carries one. -/
theorem claim_C8_span_as_ctx (w : World) (p : Nat) (d : SpanData) (key : CtxKey)
    (inner ctx : Ctx) (sp : Nat) :
    Value w p CtxKey.spanKey = some (CtxVal.spanVal p) ∧
    (key ≠ CtxKey.spanKey → look w.spans p = some d → Value w p key = ctxValue d.ctx key) ∧
    (ctxValue (Ctx.spanCtx p inner) CtxKey.spanKey = some (CtxVal.spanVal p) ∧
      (key ≠ CtxKey.spanKey →
        ctxValue (Ctx.spanCtx p inner) key = ctxValue inner key)) ∧
    SpanFromCtx (Ctx.spanCtx p inner) = some p ∧
    (ctxValue ctx CtxKey.spanKey = some (CtxVal.spanVal sp) → SpanFromCtx ctx = some sp) := by
  refine ⟨by simp [Value], ?_, ⟨by simp [ctxValue], ?_⟩, rfl, ?_⟩
  · intro hk hd
    simp [Value, hk, hd]
  · intro hk
    simp [ctxValue, hk]
  · intro hv
    cases ctx with
    | empty => simp [ctxValue] at hv
    | withValue c k v => simp [SpanFromCtx, hv]
    | spanCtx q i =>
      simp only [ctxValue, if_pos rfl, Option.some_inj] at hv
      cases hv
      rfl

theorem claim_C8_witness :
    Value wRoot 0 CtxKey.spanKey = some (CtxVal.spanVal 0) ∧
      (Value wRoot 0 (CtxKey.other 5) = ctxValue rootData.ctx (CtxKey.other 5)) ∧
      (ctxValue (Ctx.spanCtx 0 Ctx.empty) CtxKey.spanKey = some (CtxVal.spanVal 0) ∧
        ctxValue (Ctx.spanCtx 0 Ctx.empty) (CtxKey.other 5) =
          ctxValue Ctx.empty (CtxKey.other 5)) ∧
      SpanFromCtx (Ctx.spanCtx 0 Ctx.empty) = some 0 ∧
      SpanFromCtx (Ctx.withValue Ctx.empty CtxKey.spanKey (CtxVal.spanVal 7)) = some 7 := by
  obtain ⟨h1, h2, ⟨h3, h4⟩, h5, h6⟩ :=
    claim_C8_span_as_ctx wRoot 0 rootData (CtxKey.other 5) Ctx.empty
      (Ctx.withValue Ctx.empty CtxKey.spanKey (CtxVal.spanVal 7)) 7
  exact ⟨h1, h2 (by decide) (by decide), ⟨h3, h4 (by decide)⟩, h5, h6 (by decide)⟩

/-- The three possible traces of an orphan call. -/
theorem orphan_acts_cases (w : World) (p : Nat) :
    (orphan w p).2 = [] ∨ (orphan w p).2 = [Action.lock p, Action.unlock p] ∨
      (orphan w p).2 =
        [Action.lock p, Action.evt (Event.orphanedSpan p), Action.unlock p] := by
  unfold orphan
  cases look w.spans p with
  | none => exact Or.inl rfl
  | some d =>
    dsimp only
    by_cases h : (!d.done && !d.orphaned) = true
    · rw [if_pos h]
      exact Or.inr (Or.inr rfl)
    · rw [if_neg h]
      exact Or.inr (Or.inl rfl)

/-- An orphan call emits orphanedSpan notifications only. -/
theorem orphan_only_orphanedSpan (w : World) (p : Nat) (e : Event)
    (he : ∀ c, e ≠ Event.orphanedSpan c) : Action.evt e ∉ (orphan w p).2 := by
  rcases orphan_acts_cases w p with h | h | h <;> rw [h] <;> simp
  exact he p

/-- A child-orphaning loop emits orphanedSpan notifications only. -/
theorem orphanAll_only_orphanedSpan (w : World) (l : List Nat) (e : Event)
    (he : ∀ c, e ≠ Event.orphanedSpan c) : Action.evt e ∉ (orphanAll w l).2 := by
  induction l generalizing w with
  | nil => simp [orphanAll]
  | cons a rest ih =>
    simp only [orphanAll, List.mem_append]
    rintro (h | h)
    · exact orphan_only_orphanedSpan w a e he h
    · exact ih (orphan w a).1 h

/-- No orphanEnd notification hides in the observer-finish tail of an
exit trace. -/
theorem orphanEnd_notin_observerActs (q : Nat) (o : Option Nat) (spx : Nat)
    (err : Option Nat) (pk : Bool) (t : Nat) :
    Action.evt (Event.orphanEnd q) ∉
      (match o with
       | some ob => [Action.evt (Event.observerFinish ob spx err pk t)]
       | none => ([] : List Action)) := by
  cases o <;> simp

/-- C2: the finish procedure sets done under the lock, snapshots the
children and then orphans every snapshotted child (setting its flag if
it was live, with everything else about the child untouched, and firing
its orphanedSpan notification when it was live); when the span has a
parent, the span is removed from the parent's child set and orphanEnd is
reported exactly when the locally captured orphaned flag was set; when
it has no parent, rootSpanEnd is reported instead.  The hypotheses rule
out worlds in which the span is its own child or its own parent, or the
parent is one of the children — configurations the start protocol can
never build. -/
theorem claim_C2_exit_protocol (w : World) (info : ExitInfo)
    (errptr : Option (Option Nat)) (rec : Option Nat) (d : SpanData)
    (hd : look w.spans info.sp = some d)
    (hself : info.sp ∉ d.children)
    (hpar : ∀ par, d.parent = some par → par ∉ d.children ∧ par ≠ info.sp) :
    look (runExit w info errptr rec).w.spans info.sp = some { d with done := true } ∧
    (∀ c ∈ d.children, ∀ dc, look w.spans c = some dc →
      look (runExit w info errptr rec).w.spans c =
        some { dc with orphaned := dc.orphaned || !dc.done }) ∧
    (∀ c ∈ d.children, ∀ dc, look w.spans c = some dc →
      dc.done = false → dc.orphaned = false →
      Action.evt (Event.orphanedSpan c) ∈ (runExit w info errptr rec).acts) ∧
    (∀ par, d.parent = some par → ∀ dp, look w.spans par = some dp →
      look (runExit w info errptr rec).w.spans par =
        some { dp with children := bagRemove dp.children info.sp } ∧
      (Action.evt (Event.orphanEnd info.sp) ∈ (runExit w info errptr rec).acts ↔
        d.orphaned = true)) ∧
    (d.parent = none →
      Action.evt (Event.rootSpanEnd info.sp) ∈ (runExit w info errptr rec).acts) := by
  obtain ⟨did, dstart, df, dtrace, dparent, dargs, dctx, ddone, dorph, dch, dann⟩ := d
  unfold runExit
  rw [hd]
  dsimp only at hself hpar ⊢
  cases dparent with
  | none =>
    set w1 := setSpan { w with clock := w.clock + 1 } info.sp
      ⟨did, dstart, df, dtrace, none, dargs, dctx, true, dorph, dch, dann⟩ with hw1
    have hw1sp : look w1.spans info.sp =
        some ⟨did, dstart, df, dtrace, none, dargs, dctx, true, dorph, dch, dann⟩ := by
      simp [hw1, setSpan, look_upd_self]
    have hw1c : ∀ c, c ≠ info.sp → look w1.spans c = look w.spans c := by
      intro c hc
      simp [hw1, setSpan, look_upd_ne _ _ _ _ hc]
    refine ⟨?_, ?_, ?_, ?_, ?_⟩
    · rw [orphanAll_look_notmem w1 dch info.sp hself, hw1sp]
    · intro c hc dc hdc
      have hcne : c ≠ info.sp := fun h => hself (h ▸ hc)
      rw [orphanAll_look_mem w1 dch c dc hc (by rw [hw1c c hcne, hdc])]
    · intro c hc dc hdc h1 h2
      have hcne : c ≠ info.sp := fun h => hself (h ▸ hc)
      have := orphanAll_evt w1 dch c dc hc (by rw [hw1c c hcne, hdc]) h1 h2
      simp only [List.mem_append]
      tauto
    · intro par hpx
      cases hpx
    · intro _
      simp
  | some par =>
    obtain ⟨hparin, hparsp⟩ := hpar par rfl
    dsimp only
    set w1 := setSpan { w with clock := w.clock + 1 } info.sp
      ⟨did, dstart, df, dtrace, some par, dargs, dctx, true, dorph, dch, dann⟩ with hw1
    have hw1sp : look w1.spans info.sp =
        some ⟨did, dstart, df, dtrace, some par, dargs, dctx, true, dorph, dch, dann⟩ := by
      simp [hw1, setSpan, look_upd_self]
    have hw1c : ∀ c, c ≠ info.sp → look w1.spans c = look w.spans c := by
      intro c hc
      simp [hw1, setSpan, look_upd_ne _ _ _ _ hc]
    have hOsp : look (orphanAll w1 dch).1.spans info.sp =
        some ⟨did, dstart, df, dtrace, some par, dargs, dctx, true, dorph, dch, dann⟩ := by
      rw [orphanAll_look_notmem w1 dch info.sp hself, hw1sp]
    refine ⟨?_, ?_, ?_, ?_, ?_⟩
    · rw [removeChild_look_ne _ par info.sp info.sp hparsp.symm, hOsp]
    · intro c hc dc hdc
      have hcne : c ≠ info.sp := fun h => hself (h ▸ hc)
      have hcpar : c ≠ par := fun h => hparin (h ▸ hc)
      rw [removeChild_look_ne _ par info.sp c hcpar,
        orphanAll_look_mem w1 dch c dc hc (by rw [hw1c c hcne, hdc])]
    · intro c hc dc hdc h1 h2
      have hcne : c ≠ info.sp := fun h => hself (h ▸ hc)
      have := orphanAll_evt w1 dch c dc hc (by rw [hw1c c hcne, hdc]) h1 h2
      simp only [List.mem_append]
      tauto
    · intro par' hpx dp hdp
      cases hpx
      constructor
      · have hOpar : look (orphanAll w1 dch).1.spans par = some dp := by
          rw [orphanAll_look_notmem w1 dch par hparin, hw1c par hparsp, hdp]
        exact removeChild_look_parent _ par info.sp dp hOpar
      · constructor
        · intro hmem
          by_contra hnorph
          have hno : dorph = false := by
            cases dorph
            · rfl
            · exact absurd rfl hnorph
          subst hno
          simp only [List.mem_append] at hmem
          rcases hmem with (((h1m | h2m) | h3m) | h4m) | h5m
          · simp at h1m
          · simp at h2m
          · exact orphanAll_only_orphanedSpan w1 dch _ (fun c hc => by cases hc) h3m
          · simp only [Bool.false_eq_true, if_false, List.append_nil] at h4m
            rcases h4m with h4m | h4m
            · exact removeChild_no_evt _ par info.sp _ h4m
            · simp at h4m
          · exact orphanEnd_notin_observerActs _ _ _ _ _ _ h5m
        · intro horph
          subst horph
          simp [List.mem_append]
    · intro hx
      cases hx

/-- A world holding a live root span 0 whose child set is [1], with the
live child span 1 at parent 0 (span B started inside span A's context). -/
def wChild : World := (newSpan wRoot (Ctx.spanCtx 0 Ctx.empty) 2 [] 101 none).w

/-- The parent span of `wChild`. -/
def parentData : SpanData :=
  ⟨100, 0, 1, 0, none, [], Ctx.empty, false, false, [1], 0⟩

theorem claim_C2_witness :
    look wChild.spans 0 = some parentData ∧ 0 ∉ parentData.children ∧
    (look (runExit wChild ⟨0, none⟩ none none).w.spans 0 =
        some { parentData with done := true } ∧
      (∀ c ∈ parentData.children, ∀ dc, look wChild.spans c = some dc →
        look (runExit wChild ⟨0, none⟩ none none).w.spans c =
          some { dc with orphaned := dc.orphaned || !dc.done }) ∧
      (∀ c ∈ parentData.children, ∀ dc, look wChild.spans c = some dc →
        dc.done = false → dc.orphaned = false →
        Action.evt (Event.orphanedSpan c) ∈ (runExit wChild ⟨0, none⟩ none none).acts) ∧
      (∀ par, parentData.parent = some par → ∀ dp, look wChild.spans par = some dp →
        look (runExit wChild ⟨0, none⟩ none none).w.spans par =
          some { dp with children := bagRemove dp.children 0 } ∧
        (Action.evt (Event.orphanEnd 0) ∈ (runExit wChild ⟨0, none⟩ none none).acts ↔
          parentData.orphaned = true)) ∧
      (parentData.parent = none →
        Action.evt (Event.rootSpanEnd 0) ∈ (runExit wChild ⟨0, none⟩ none none).acts)) :=
  ⟨by decide, by decide,
    claim_C2_exit_protocol wChild ⟨0, none⟩ none none parentData (by decide) (by decide)
      (fun par h => Option.noConfusion h)⟩

/-- C5: when a panic is propagating while the finish procedure runs
(`rec = some v`), the whole finish protocol still executes — the Func end
notification fires with panicked = true, every live snapshotted child is
orphaned, the registry receives rootSpanEnd (no parent) or orphanEnd
(orphaned with parent), and the captured observer's Finish fires with
panicked = true — and the panic value is re-raised unchanged to the
caller once the protocol has completed. -/
theorem claim_C5_panic_passthrough (w : World) (info : ExitInfo)
    (errptr : Option (Option Nat)) (v : Nat) (d : SpanData)
    (hd : look w.spans info.sp = some d) (hself : info.sp ∉ d.children) :
    (∃ dur, Action.evt (Event.funcEnd d.f (derefErr errptr) true dur) ∈
      (runExit w info errptr (some v)).acts) ∧
    (∀ c ∈ d.children, ∀ dc, look w.spans c = some dc →
      dc.done = false → dc.orphaned = false →
      Action.evt (Event.orphanedSpan c) ∈ (runExit w info errptr (some v)).acts) ∧
    (d.parent = none →
      Action.evt (Event.rootSpanEnd info.sp) ∈ (runExit w info errptr (some v)).acts) ∧
    (∀ par, d.parent = some par → d.orphaned = true →
      Action.evt (Event.orphanEnd info.sp) ∈ (runExit w info errptr (some v)).acts) ∧
    (∀ o, info.observer = some o →
      ∃ t, Action.evt (Event.observerFinish o info.sp (derefErr errptr) true t) ∈
        (runExit w info errptr (some v)).acts) ∧
    (runExit w info errptr (some v)).panicOut = some v := by
  obtain ⟨did, dstart, df, dtrace, dparent, dargs, dctx, ddone, dorph, dch, dann⟩ := d
  unfold runExit
  rw [hd]
  dsimp only at hself ⊢
  cases dparent with
  | none =>
    refine ⟨⟨w.clock - dstart, by simp⟩, ?_, ?_, ?_, ?_, rfl⟩
    · intro c hc dc hdc h1 h2
      have hcne : c ≠ info.sp := fun h => hself (h ▸ hc)
      have := orphanAll_evt
        (setSpan { w with clock := w.clock + 1 } info.sp
          ⟨did, dstart, df, dtrace, none, dargs, dctx, true, dorph, dch, dann⟩)
        dch c dc hc (by simp [setSpan, look_upd_ne _ _ _ _ hcne, hdc]) h1 h2
      simp only [List.mem_append]
      tauto
    · intro _
      simp
    · intro par hpx
      cases hpx
    · intro o ho
      rw [ho]
      exact ⟨w.clock, by simp⟩
  | some par =>
    refine ⟨⟨w.clock - dstart, by simp⟩, ?_, ?_, ?_, ?_, rfl⟩
    · intro c hc dc hdc h1 h2
      have hcne : c ≠ info.sp := fun h => hself (h ▸ hc)
      have := orphanAll_evt
        (setSpan { w with clock := w.clock + 1 } info.sp
          ⟨did, dstart, df, dtrace, some par, dargs, dctx, true, dorph, dch, dann⟩)
        dch c dc hc (by simp [setSpan, look_upd_ne _ _ _ _ hcne, hdc]) h1 h2
      simp only [List.mem_append]
      tauto
    · intro hx
      cases hx
    · intro par' hpx horph
      cases hpx
      subst horph
      simp [List.mem_append]
    · intro o ho
      rw [ho]
      exact ⟨w.clock, by simp⟩

theorem claim_C5_witness :
    look wChild.spans 0 = some parentData ∧ 0 ∉ parentData.children ∧
    ((∃ dur, Action.evt (Event.funcEnd parentData.f (derefErr (some (some 7))) true dur) ∈
        (runExit wChild ⟨0, some 9⟩ (some (some 7)) (some 42)).acts) ∧
      (∀ c ∈ parentData.children, ∀ dc, look wChild.spans c = some dc →
        dc.done = false → dc.orphaned = false →
        Action.evt (Event.orphanedSpan c) ∈
          (runExit wChild ⟨0, some 9⟩ (some (some 7)) (some 42)).acts) ∧
      (parentData.parent = none →
        Action.evt (Event.rootSpanEnd 0) ∈
          (runExit wChild ⟨0, some 9⟩ (some (some 7)) (some 42)).acts) ∧
      (∀ par, parentData.parent = some par → parentData.orphaned = true →
        Action.evt (Event.orphanEnd 0) ∈
          (runExit wChild ⟨0, some 9⟩ (some (some 7)) (some 42)).acts) ∧
      (∀ o, (ExitInfo.mk 0 (some 9)).observer = some o →
        ∃ t, Action.evt (Event.observerFinish o 0 (derefErr (some (some 7))) true t) ∈
          (runExit wChild ⟨0, some 9⟩ (some (some 7)) (some 42)).acts) ∧
      (runExit wChild ⟨0, some 9⟩ (some (some 7)) (some 42)).panicOut = some 42) :=
  ⟨by decide, by decide,
    claim_C5_panic_passthrough wChild ⟨0, some 9⟩ (some (some 7)) 42 parentData
      (by decide) (by decide)⟩

theorem chkRelaxed_append (h : List Nat) (as bs : List Action) :
    chkRelaxed h (as ++ bs) = (chkRelaxed h as).bind (fun h' => chkRelaxed h' bs) := by
  induction as generalizing h with
  | nil => simp [chkRelaxed]
  | cons a rest ih =>
    cases a with
    | lock p =>
      by_cases hh : h = [] <;> simp [chkRelaxed, hh, ih]
    | unlock p =>
      by_cases hh : h = [p] <;> simp [chkRelaxed, hh, ih]
    | evt e =>
      by_cases hh : allowedEvt h e = true <;> simp [chkRelaxed, hh, ih]

theorem locksOkRelaxed_append (as bs : List Action)
    (ha : locksOkRelaxed as = true) (hb : locksOkRelaxed bs = true) :
    locksOkRelaxed (as ++ bs) = true := by
  simp only [locksOkRelaxed, decide_eq_true_eq] at ha hb ⊢
  rw [chkRelaxed_append, ha]
  simpa using hb

theorem locksOkRelaxed_evt (e : Event) : locksOkRelaxed [Action.evt e] = true := by
  simp [locksOkRelaxed, chkRelaxed, allowedEvt]

theorem locksOkRelaxed_lockUnlock (p : Nat) :
    locksOkRelaxed [Action.lock p, Action.unlock p] = true := by
  simp [locksOkRelaxed, chkRelaxed]

theorem locksOkRelaxed_orphan (w : World) (p : Nat) :
    locksOkRelaxed (orphan w p).2 = true := by
  rcases orphan_acts_cases w p with h | h | h <;> rw [h] <;>
    simp [locksOkRelaxed, chkRelaxed, allowedEvt]

theorem locksOkRelaxed_orphanAll (w : World) (l : List Nat) :
    locksOkRelaxed (orphanAll w l).2 = true := by
  induction l generalizing w with
  | nil => simp [orphanAll, locksOkRelaxed, chkRelaxed]
  | cons a rest ih =>
    simp only [orphanAll]
    exact locksOkRelaxed_append _ _ (locksOkRelaxed_orphan w a) (ih (orphan w a).1)

theorem locksOkRelaxed_addChild (w : World) (par c : Nat) :
    locksOkRelaxed (addChild w par c).2 = true := by
  unfold addChild
  cases look w.spans par with
  | none => simp [locksOkRelaxed, chkRelaxed]
  | some d =>
    dsimp only
    split
    · exact locksOkRelaxed_append _ _ (locksOkRelaxed_lockUnlock par)
        (locksOkRelaxed_orphan _ c)
    · exact locksOkRelaxed_lockUnlock par

theorem locksOkRelaxed_removeChild (w : World) (par c : Nat) :
    locksOkRelaxed (removeChild w par c).2 = true := by
  unfold removeChild
  cases look w.spans par with
  | none => simp [locksOkRelaxed, chkRelaxed]
  | some d => exact locksOkRelaxed_lockUnlock par

theorem locksOkRelaxed_nil : locksOkRelaxed [] = true := by
  simp [locksOkRelaxed, chkRelaxed]

theorem locksOkRelaxed_observerActs (o : Option Nat) (spx : Nat) (err : Option Nat)
    (pk : Bool) (t : Nat) :
    locksOkRelaxed
      (match o with
       | some ob => [Action.evt (Event.observerFinish ob spx err pk t)]
       | none => ([] : List Action)) = true := by
  cases o
  · exact locksOkRelaxed_nil
  · exact locksOkRelaxed_evt _

theorem locksOkRelaxed_runExit (w : World) (info : ExitInfo)
    (errptr : Option (Option Nat)) (rec : Option Nat) :
    locksOkRelaxed (runExit w info errptr rec).acts = true := by
  unfold runExit
  cases hd : look w.spans info.sp with
  | none => exact locksOkRelaxed_nil
  | some d =>
    dsimp only
    cases hp : d.parent with
    | some par =>
      dsimp only
      refine locksOkRelaxed_append _ _ (locksOkRelaxed_append _ _
        (locksOkRelaxed_append _ _ (locksOkRelaxed_append _ _
          (locksOkRelaxed_evt _) (locksOkRelaxed_lockUnlock info.sp))
          (locksOkRelaxed_orphanAll _ _)) ?_) (locksOkRelaxed_observerActs _ _ _ _ _)
      refine locksOkRelaxed_append _ _ (locksOkRelaxed_removeChild _ par info.sp) ?_
      split
      · exact locksOkRelaxed_evt _
      · exact locksOkRelaxed_nil
    | none =>
      dsimp only
      exact locksOkRelaxed_append _ _ (locksOkRelaxed_append _ _
        (locksOkRelaxed_append _ _ (locksOkRelaxed_append _ _
          (locksOkRelaxed_evt _) (locksOkRelaxed_lockUnlock info.sp))
          (locksOkRelaxed_orphanAll _ _)) (locksOkRelaxed_evt _))
        (locksOkRelaxed_observerActs _ _ _ _ _)

theorem resolveSpan_acts_cases (w : World) (ctx : Ctx) (id : Nat)
    (traceArg : Option Nat) :
    (resolveSpan w ctx id traceArg).acts = [] ∨
      (resolveSpan w ctx id traceArg).acts =
        [Action.evt (Event.observeTrace w.nextTrace)] := by
  unfold resolveSpan
  cases ctx <;> cases traceArg <;> dsimp only <;>
    first
    | exact Or.inl rfl
    | exact Or.inr rfl
    | (split <;> first | exact Or.inl rfl | exact Or.inr rfl)

theorem locksOkRelaxed_observerStartActs (o : Option Nat) (spx : Nat) :
    locksOkRelaxed
      (match o with
       | some ob => [Action.evt (Event.observerStart ob spx)]
       | none => ([] : List Action)) = true := by
  cases o
  · exact locksOkRelaxed_nil
  · exact locksOkRelaxed_evt _

theorem locksOkRelaxed_newSpan (w : World) (ctx : Ctx) (f : Nat) (args : List String)
    (id : Nat) (traceArg : Option Nat) :
    locksOkRelaxed (newSpan w ctx f args id traceArg).acts = true := by
  have hres : locksOkRelaxed (resolveSpan w ctx id traceArg).acts = true := by
    rcases resolveSpan_acts_cases w ctx id traceArg with h | h <;> rw [h]
    · exact locksOkRelaxed_nil
    · exact locksOkRelaxed_evt _
  unfold newSpan
  dsimp only
  cases hp : (resolveSpan w ctx id traceArg).parent with
  | some par =>
    dsimp only
    exact locksOkRelaxed_append _ _ (locksOkRelaxed_append _ _
      (locksOkRelaxed_append _ _ hres (locksOkRelaxed_evt _))
      (locksOkRelaxed_addChild _ par _)) (locksOkRelaxed_observerStartActs _ _)
  | none =>
    dsimp only
    refine locksOkRelaxed_append _ _ (locksOkRelaxed_append _ _ hres ?_)
      (locksOkRelaxed_observerStartActs _ _)
    simp [locksOkRelaxed, chkRelaxed, allowedEvt]

/-- C9 counterexample: orphan on a live span emits the orphanedSpan
registry callback strictly between acquiring and releasing the span's
own lock, so the strict discipline — release the lock before every
callback — is violated by the code as written. -/
theorem claim_C9_counterexample :
    (step wRoot (Op.orphanOp 0)).2 =
      [Action.lock 0, Action.evt (Event.orphanedSpan 0), Action.unlock 0] ∧
    locksOk (step wRoot (Op.orphanOp 0)).2 = false := ⟨by decide, by decide⟩

/-- C9 as amended: every operation of the core releases a span's lock
before invoking any Func, registry or observer callback and never nests
two locks, with the single exception that the orphanedSpan registry
notification inside orphan() is issued while holding exactly the
orphaned span's own lock. -/
theorem claim_C9_amended_lock_discipline (w : World) (op : Op) :
    locksOkRelaxed (step w op).2 = true := by
  cases op with
  | startOp ctx f args id tr => exact locksOkRelaxed_newSpan w ctx f args id tr
  | exitOp info errptr rec => exact locksOkRelaxed_runExit w info errptr rec
  | orphanOp p => exact locksOkRelaxed_orphan w p
  | addChildOp par c => exact locksOkRelaxed_addChild w par c
  | removeChildOp par c => exact locksOkRelaxed_removeChild w par c
  | annotateOp p n v =>
    show locksOkRelaxed (Annotate w p n v).2 = true
    unfold Annotate
    cases look w.spans p with
    | none => exact locksOkRelaxed_nil
    | some d => exact locksOkRelaxed_lockUnlock p
  | annotationsOp p =>
    show locksOkRelaxed (Annotations w p).2.2 = true
    unfold Annotations
    cases look w.spans p with
    | none => exact locksOkRelaxed_nil
    | some d => exact locksOkRelaxed_lockUnlock p
  | childrenOp p =>
    show locksOkRelaxed (Children w p).2 = true
    unfold Children
    cases look w.spans p with
    | none => exact locksOkRelaxed_nil
    | some d => exact locksOkRelaxed_lockUnlock p
  | orphanedOp p =>
    show locksOkRelaxed (Orphaned w p).2 = true
    unfold Orphaned
    cases look w.spans p with
    | none => exact locksOkRelaxed_nil
    | some d => exact locksOkRelaxed_lockUnlock p
  | setObserverOp tp o => exact locksOkRelaxed_nil
  | sliceWriteOp arr i v => exact locksOkRelaxed_nil

/-- Two worlds that agree on everything the exit closure can read or
write — they may differ in their traces (and trace counter), which is
exactly what observer registration changes. -/
def exceptTraces (w w' : World) : Prop :=
  w'.spans = w.spans ∧ w'.arrays = w.arrays ∧ w'.nextSpan = w.nextSpan ∧
    w'.nextArr = w.nextArr ∧ w'.clock = w.clock

theorem exceptTraces_setObserver (w : World) (tp : Nat) (o : Option Nat) :
    exceptTraces w (setObserver w tp o) := by
  unfold setObserver
  cases look w.traces tp <;> exact ⟨rfl, rfl, rfl, rfl, rfl⟩

theorem orphan_exceptTraces {w w' : World} (h : exceptTraces w w') (p : Nat) :
    (orphan w' p).2 = (orphan w p).2 ∧
      exceptTraces (orphan w p).1 (orphan w' p).1 := by
  unfold orphan
  rw [h.1]
  cases look w.spans p with
  | none => exact ⟨rfl, h⟩
  | some d =>
    dsimp only
    split
    · exact ⟨rfl, by simp [setSpan, h.1, h.2.1, h.2.2.1, h.2.2.2.1, h.2.2.2.2,
        exceptTraces]⟩
    · exact ⟨rfl, h⟩

theorem orphanAll_exceptTraces {w w' : World} (h : exceptTraces w w') (l : List Nat) :
    (orphanAll w' l).2 = (orphanAll w l).2 ∧
      exceptTraces (orphanAll w l).1 (orphanAll w' l).1 := by
  induction l generalizing w w' with
  | nil => exact ⟨rfl, h⟩
  | cons a rest ih =>
    simp only [orphanAll]
    obtain ⟨ha, hw⟩ := orphan_exceptTraces h a
    obtain ⟨hr, hw2⟩ := ih hw
    exact ⟨by rw [ha, hr], hw2⟩

theorem removeChild_exceptTraces {w w' : World} (h : exceptTraces w w') (par c : Nat) :
    (removeChild w' par c).2 = (removeChild w par c).2 ∧
      exceptTraces (removeChild w par c).1 (removeChild w' par c).1 := by
  unfold removeChild
  rw [h.1]
  cases look w.spans par with
  | none => exact ⟨rfl, h⟩
  | some d =>
    exact ⟨rfl, by simp [setSpan, h.1, h.2.1, h.2.2.1, h.2.2.2.1, h.2.2.2.2,
      exceptTraces]⟩

/-- The exit closure never consults the traces: its emitted actions and
re-raised panic are unchanged by any modification confined to the
world's traces — in particular by registering or replacing a trace's
observer after the span started. -/
theorem runExit_exceptTraces {w w' : World} (h : exceptTraces w w') (info : ExitInfo)
    (errptr : Option (Option Nat)) (rec : Option Nat) :
    (runExit w' info errptr rec).acts = (runExit w info errptr rec).acts ∧
      (runExit w' info errptr rec).panicOut = (runExit w info errptr rec).panicOut := by
  obtain ⟨sp2, tr2, ar2, ns2, nt2, na2, cl2⟩ := w'
  obtain ⟨hsp, harr, hns, hna, hcl⟩ := h
  dsimp only at hsp harr hns hna hcl
  subst hsp
  subst harr
  subst hns
  subst hna
  subst hcl
  unfold runExit
  cases hd : look w.spans info.sp with
  | none => exact ⟨rfl, rfl⟩
  | some d =>
    obtain ⟨did, dstart, df, dtrace, dparent, dargs, dctx, ddone, dorph, dch, dann⟩ := d
    dsimp only
    cases dparent with
    | some par =>
      dsimp only
      have h1 : exceptTraces
          (setSpan { w with clock := w.clock + 1 } info.sp
            ⟨did, dstart, df, dtrace, some par, dargs, dctx, true, dorph, dch, dann⟩)
          (setSpan ⟨w.spans, tr2, w.arrays, w.nextSpan, nt2, w.nextArr, w.clock + 1⟩
            info.sp
            ⟨did, dstart, df, dtrace, some par, dargs, dctx, true, dorph, dch, dann⟩) := by
        simp [setSpan, exceptTraces]
      obtain ⟨hOa, hOw⟩ := orphanAll_exceptTraces h1 dch
      obtain ⟨hRa, _⟩ := removeChild_exceptTraces hOw par info.sp
      refine ⟨?_, rfl⟩
      rw [hOa, hRa]
    | none =>
      dsimp only
      have h1 : exceptTraces
          (setSpan { w with clock := w.clock + 1 } info.sp
            ⟨did, dstart, df, dtrace, none, dargs, dctx, true, dorph, dch, dann⟩)
          (setSpan ⟨w.spans, tr2, w.arrays, w.nextSpan, nt2, w.nextArr, w.clock + 1⟩
            info.sp
            ⟨did, dstart, df, dtrace, none, dargs, dctx, true, dorph, dch, dann⟩) := by
        simp [setSpan, exceptTraces]
      obtain ⟨hOa, hOw⟩ := orphanAll_exceptTraces h1 dch
      refine ⟨?_, rfl⟩
      rw [hOa]

/-- C10: the observer used for a span's notifications is the trace's
observer as resolved once at span start: the closure captures exactly
the observer the resolved trace had when the span started, the start
notification goes to that captured observer, registering or replacing
the trace's observer afterwards leaves the finish procedure's emitted
actions unchanged, a finish notification is only ever delivered to the
captured observer, and when an observer was captured the finish
notification to it does fire. -/
theorem claim_C10_observer_capture (w : World) (ctx : Ctx) (f : Nat) (args : List String)
    (id : Nat) (tArg : Option Nat) (w2 : World) (tp : Nat) (o2 : Option Nat)
    (info : ExitInfo) (errptr : Option (Option Nat)) (rec : Option Nat) :
    (newSpan w ctx f args id tArg).info.observer =
      getObserver (resolveSpan w ctx id tArg).w (resolveSpan w ctx id tArg).tracePtr ∧
    (∀ o, (newSpan w ctx f args id tArg).info.observer = some o →
      Action.evt (Event.observerStart o (newSpan w ctx f args id tArg).sp) ∈
        (newSpan w ctx f args id tArg).acts) ∧
    ((runExit (setObserver w2 tp o2) info errptr rec).acts =
      (runExit w2 info errptr rec).acts) ∧
    (∀ o q er pk t, Action.evt (Event.observerFinish o q er pk t) ∈
        (runExit w2 info errptr rec).acts → info.observer = some o) ∧
    (∀ o d2, info.observer = some o → look w2.spans info.sp = some d2 →
      ∃ t, Action.evt (Event.observerFinish o info.sp (derefErr errptr) rec.isSome t) ∈
        (runExit w2 info errptr rec).acts) := by
  refine ⟨?_, ?_, ?_, ?_, ?_⟩
  · unfold newSpan
    dsimp only
    rcases hp : (resolveSpan w ctx id tArg).parent with _ | par <;> rfl
  · intro o ho
    unfold newSpan at ho ⊢
    dsimp only at ho ⊢
    rcases hp : (resolveSpan w ctx id tArg).parent with _ | par <;>
      rw [hp] at ho <;> dsimp only at ho ⊢ <;> rw [ho] <;> simp
  · exact (runExit_exceptTraces (exceptTraces_setObserver w2 tp o2) info errptr rec).1
  · intro o q er pk t hmem
    unfold runExit at hmem
    cases hd : look w2.spans info.sp with
    | none =>
      rw [hd] at hmem
      simp at hmem
    | some d =>
      rw [hd] at hmem
      dsimp only at hmem
      cases hp : d.parent with
      | some par =>
        rw [hp] at hmem
        dsimp only at hmem
        simp only [List.mem_append] at hmem
        rcases hmem with (((h1m | h2m) | h3m) | h4m) | h5m
        · simp at h1m
        · simp at h2m
        · exact absurd h3m
            (orphanAll_only_orphanedSpan _ _ _ (fun c hc => by cases hc))
        · rcases h4m with h4m | h4m
          · exact absurd h4m (removeChild_no_evt _ par info.sp _)
          · rcases hdo : d.orphaned with _ | _ <;> rw [hdo] at h4m <;> simp at h4m
        · cases ho : info.observer with
          | none =>
            rw [ho] at h5m
            simp at h5m
          | some ob =>
            rw [ho] at h5m
            simp only [List.mem_singleton] at h5m
            cases h5m
            rfl
      | none =>
        rw [hp] at hmem
        dsimp only at hmem
        simp only [List.mem_append] at hmem
        rcases hmem with (((h1m | h2m) | h3m) | h4m) | h5m
        · simp at h1m
        · simp at h2m
        · exact absurd h3m
            (orphanAll_only_orphanedSpan _ _ _ (fun c hc => by cases hc))
        · simp at h4m
        · cases ho : info.observer with
          | none =>
            rw [ho] at h5m
            simp at h5m
          | some ob =>
            rw [ho] at h5m
            simp only [List.mem_singleton] at h5m
            cases h5m
            rfl
  · intro o d2 ho hd2
    unfold runExit
    rw [hd2]
    dsimp only
    rw [ho]
    refine ⟨w2.clock, ?_⟩
    cases hp : d2.parent <;> simp [List.mem_append]

theorem claim_C10_witness :
    (newSpan (setObserver wRoot 0 (some 5)) (Ctx.spanCtx 0 Ctx.empty) 2 [] 101
        none).info.observer =
      getObserver
        (resolveSpan (setObserver wRoot 0 (some 5)) (Ctx.spanCtx 0 Ctx.empty) 101 none).w
        (resolveSpan (setObserver wRoot 0 (some 5)) (Ctx.spanCtx 0 Ctx.empty) 101
          none).tracePtr ∧
    Action.evt (Event.observerStart 5
        (newSpan (setObserver wRoot 0 (some 5)) (Ctx.spanCtx 0 Ctx.empty) 2 [] 101
          none).sp) ∈
      (newSpan (setObserver wRoot 0 (some 5)) (Ctx.spanCtx 0 Ctx.empty) 2 [] 101
        none).acts ∧
    (runExit (setObserver wChild 0 (some 7)) ⟨0, some 9⟩ none none).acts =
      (runExit wChild ⟨0, some 9⟩ none none).acts ∧
    ∃ t, Action.evt (Event.observerFinish 9 0 (derefErr none) (none : Option Nat).isSome
        t) ∈ (runExit wChild ⟨0, some 9⟩ none none).acts := by
  obtain ⟨h1, h2, h3, _, h5⟩ := claim_C10_observer_capture (setObserver wRoot 0 (some 5))
    (Ctx.spanCtx 0 Ctx.empty) 2 [] 101 none wChild 0 (some 7) ⟨0, some 9⟩ none none
  exact ⟨h1, h2 5 (by decide), h3, h5 9 parentData (by decide) (by decide)⟩

theorem addChild_traces (w : World) (par c : Nat) :
    (addChild w par c).1.traces = w.traces := by
  unfold addChild
  cases look w.spans par with
  | none => rfl
  | some d =>
    dsimp only
    split
    · exact (orphan_rest _ c).1.trans rfl
    · rfl

/-- addChild emits no observeTrace notification. -/
theorem observeTrace_notin_addChild (w : World) (par c tq : Nat) :
    Action.evt (Event.observeTrace tq) ∉ (addChild w par c).2 := by
  unfold addChild
  cases look w.spans par with
  | none => simp
  | some d =>
    dsimp only
    split
    · simp only [List.mem_append]
      rintro (h | h)
      · simp at h
      · exact orphan_only_orphanedSpan _ c _ (fun cc hc => by cases hc) h
    · simp

/-- The entry of the freshly started span: its parent, trace, stored
context, id and Func are the resolved values (a done parent may have
orphaned it already, but those fields are immutable). -/
theorem newSpan_span_entry (w : World) (ctx : Ctx) (f : Nat) (args : List String)
    (id : Nat) (tArg : Option Nat)
    (hfresh : ∀ par, (resolveSpan w ctx id tArg).parent = some par → par ≠ w.nextSpan) :
    ∃ d', look (newSpan w ctx f args id tArg).w.spans (newSpan w ctx f args id tArg).sp =
        some d' ∧
      d'.parent = (resolveSpan w ctx id tArg).parent ∧
      d'.trace = (resolveSpan w ctx id tArg).tracePtr ∧
      d'.ctx = (resolveSpan w ctx id tArg).storedCtx ∧ d'.id = id ∧ d'.f = f := by
  have hrest := resolveSpan_rest w ctx id tArg
  unfold newSpan
  dsimp only
  rcases hp : (resolveSpan w ctx id tArg).parent with _ | par
  · dsimp only
    exact ⟨_, look_upd_self _ _ _, rfl, rfl, rfl, rfl, rfl⟩
  · dsimp only
    have hne : par ≠ (resolveSpan w ctx id tArg).w.nextSpan := by
      rw [hrest.2.1]
      exact hfresh par hp
    have hd0 : look (upd (resolveSpan w ctx id tArg).w.spans
        (resolveSpan w ctx id tArg).w.nextSpan
        { id := id, start := (resolveSpan w ctx id tArg).w.clock, f := f,
          trace := (resolveSpan w ctx id tArg).tracePtr, parent := some par,
          args := args, ctx := (resolveSpan w ctx id tArg).storedCtx, done := false,
          orphaned := false, children := [],
          annArr := (resolveSpan w ctx id tArg).w.nextArr })
        (resolveSpan w ctx id tArg).w.nextSpan = some _ := look_upd_self _ _ _
    cases hpar : look (upd (resolveSpan w ctx id tArg).w.spans
        (resolveSpan w ctx id tArg).w.nextSpan
        { id := id, start := (resolveSpan w ctx id tArg).w.clock, f := f,
          trace := (resolveSpan w ctx id tArg).tracePtr, parent := some par,
          args := args, ctx := (resolveSpan w ctx id tArg).storedCtx, done := false,
          orphaned := false, children := [],
          annArr := (resolveSpan w ctx id tArg).w.nextArr }) par with
    | none =>
      unfold addChild
      rw [hpar]
      exact ⟨_, look_upd_self _ _ _, rfl, rfl, rfl, rfl, rfl⟩
    | some dpar =>
      have := addChild_look_child
        { (resolveSpan w ctx id tArg).w with
          spans := upd (resolveSpan w ctx id tArg).w.spans
            (resolveSpan w ctx id tArg).w.nextSpan
            { id := id, start := (resolveSpan w ctx id tArg).w.clock, f := f,
              trace := (resolveSpan w ctx id tArg).tracePtr, parent := some par,
              args := args, ctx := (resolveSpan w ctx id tArg).storedCtx, done := false,
              orphaned := false, children := [],
              annArr := (resolveSpan w ctx id tArg).w.nextArr },
          arrays := upd (resolveSpan w ctx id tArg).w.arrays
            (resolveSpan w ctx id tArg).w.nextArr [],
          nextSpan := (resolveSpan w ctx id tArg).w.nextSpan + 1,
          nextArr := (resolveSpan w ctx id tArg).w.nextArr + 1,
          clock := (resolveSpan w ctx id tArg).w.clock + 1 }
        par (resolveSpan w ctx id tArg).w.nextSpan dpar _ hpar (look_upd_self _ _ _)
        (Ne.symm hne)
      refine ⟨_, this, ?_⟩
      split <;> exact ⟨rfl, rfl, rfl, rfl, rfl⟩

/-- Any observeTrace notification in a start trace comes from the
parent/trace resolution (the minting of a fresh trace). -/
theorem observeTrace_in_newSpan (w : World) (ctx : Ctx) (f : Nat) (args : List String)
    (id : Nat) (tArg : Option Nat) (tq : Nat)
    (h : Action.evt (Event.observeTrace tq) ∈ (newSpan w ctx f args id tArg).acts) :
    Action.evt (Event.observeTrace tq) ∈ (resolveSpan w ctx id tArg).acts := by
  unfold newSpan at h
  dsimp only at h
  rcases hp : (resolveSpan w ctx id tArg).parent with _ | par <;> rw [hp] at h <;>
    dsimp only at h <;> simp only [List.mem_append] at h
  · rcases h with (h | h) | h
    · exact h
    · simp at h
    · rcases ho : getObserver (resolveSpan w ctx id tArg).w
        (resolveSpan w ctx id tArg).tracePtr with _ | o <;> rw [ho] at h <;> simp at h
  · rcases h with ((h | h) | h) | h
    · exact h
    · simp at h
    · exact absurd h (observeTrace_notin_addChild _ par _ tq)
    · rcases ho : getObserver (resolveSpan w ctx id tArg).w
        (resolveSpan w ctx id tArg).tracePtr with _ | o <;> rw [ho] at h <;> simp at h

/-- Every action of the parent/trace resolution appears in the start
trace. -/
theorem resolveActs_sub_newSpan (w : World) (ctx : Ctx) (f : Nat) (args : List String)
    (id : Nat) (tArg : Option Nat) (a : Action)
    (h : a ∈ (resolveSpan w ctx id tArg).acts) :
    a ∈ (newSpan w ctx f args id tArg).acts := by
  unfold newSpan
  dsimp only
  rcases hp : (resolveSpan w ctx id tArg).parent with _ | par <;> dsimp only <;>
    simp only [List.mem_append] <;> tauto

theorem newSpan_traces (w : World) (ctx : Ctx) (f : Nat) (args : List String)
    (id : Nat) (tArg : Option Nat) :
    (newSpan w ctx f args id tArg).w.traces = (resolveSpan w ctx id tArg).w.traces := by
  unfold newSpan
  dsimp only
  cases hp : (resolveSpan w ctx id tArg).parent with
  | none => dsimp only
  | some par =>
    dsimp only
    refine Eq.trans (addChild_traces _ par _) ?_
    rfl

/-- C1 as amended: the parent is resolved from the incoming context only
when no explicit trace was supplied.  With no explicit trace: a context
that is a span, or carries one under the reserved key, becomes the
parent and its trace is inherited; otherwise a fresh trace is minted,
registered and reported via observeTrace.  With an explicit trace: the
span always has no parent and uses the supplied trace, and no trace is
minted. -/
theorem claim_C1_amended_resolution (w : World) (ctx : Ctx) (f : Nat)
    (args : List String) (id : Nat) (hWF : WF w = true) :
    (∀ sp inner dsp, ctx = Ctx.spanCtx sp inner → look w.spans sp = some dsp →
      ∃ d', look (newSpan w ctx f args id none).w.spans
          (newSpan w ctx f args id none).sp = some d' ∧
        d'.parent = some sp ∧ d'.trace = dsp.trace ∧
        ∀ tq, Action.evt (Event.observeTrace tq) ∉ (newSpan w ctx f args id none).acts) ∧
    (∀ sp inner t, ctx = Ctx.spanCtx sp inner →
      ∃ d', look (newSpan w ctx f args id (some t)).w.spans
          (newSpan w ctx f args id (some t)).sp = some d' ∧
        d'.parent = none ∧ d'.trace = t ∧
        ∀ tq, Action.evt (Event.observeTrace tq) ∉
          (newSpan w ctx f args id (some t)).acts) ∧
    (∀ sp dsp, (∀ q i, ctx ≠ Ctx.spanCtx q i) →
      ctxValue ctx CtxKey.spanKey = some (CtxVal.spanVal sp) →
      look w.spans sp = some dsp →
      ∃ d', look (newSpan w ctx f args id none).w.spans
          (newSpan w ctx f args id none).sp = some d' ∧
        d'.parent = some sp ∧ d'.trace = dsp.trace ∧
        ∀ tq, Action.evt (Event.observeTrace tq) ∉ (newSpan w ctx f args id none).acts) ∧
    (∀ sp t, (∀ q i, ctx ≠ Ctx.spanCtx q i) →
      ctxValue ctx CtxKey.spanKey = some (CtxVal.spanVal sp) →
      ∃ d', look (newSpan w ctx f args id (some t)).w.spans
          (newSpan w ctx f args id (some t)).sp = some d' ∧
        d'.parent = none ∧ d'.trace = t ∧
        ∀ tq, Action.evt (Event.observeTrace tq) ∉
          (newSpan w ctx f args id (some t)).acts) ∧
    ((∀ q i, ctx ≠ Ctx.spanCtx q i) →
      (∀ s, ctxValue ctx CtxKey.spanKey ≠ some (CtxVal.spanVal s)) →
      ∃ d', look (newSpan w ctx f args id none).w.spans
          (newSpan w ctx f args id none).sp = some d' ∧
        d'.parent = none ∧ d'.trace = w.nextTrace ∧
        Action.evt (Event.observeTrace w.nextTrace) ∈
          (newSpan w ctx f args id none).acts ∧
        look (newSpan w ctx f args id none).w.traces w.nextTrace =
          some ⟨id, none⟩) ∧
    ((∀ q i, ctx ≠ Ctx.spanCtx q i) →
      (∀ s, ctxValue ctx CtxKey.spanKey ≠ some (CtxVal.spanVal s)) → ∀ t,
      ∃ d', look (newSpan w ctx f args id (some t)).w.spans
          (newSpan w ctx f args id (some t)).sp = some d' ∧
        d'.parent = none ∧ d'.trace = t ∧
        ∀ tq, Action.evt (Event.observeTrace tq) ∉
          (newSpan w ctx f args id (some t)).acts) := by
  have hkeys : keysLt w.spans w.nextSpan = true := by
    simp only [WF, Bool.and_eq_true] at hWF
    exact hWF.1.1.1
  refine ⟨?_, ?_, ?_, ?_, ?_, ?_⟩
  · intro sp inner dsp hctx hl
    subst hctx
    have hres : resolveSpan w (Ctx.spanCtx sp inner) id none =
        ⟨inner, some sp, dsp.trace, w, []⟩ := by
      unfold resolveSpan
      dsimp only
      rw [hl]
    have hfresh : ∀ par,
        (resolveSpan w (Ctx.spanCtx sp inner) id none).parent = some par →
        par ≠ w.nextSpan := by
      intro par hp
      rw [hres] at hp
      cases hp
      exact Nat.ne_of_lt (look_lt_of_keysLt w.spans w.nextSpan sp dsp hkeys hl)
    obtain ⟨d', h1, h2, h3, _⟩ :=
      newSpan_span_entry w (Ctx.spanCtx sp inner) f args id none hfresh
    refine ⟨d', h1, by rw [h2, hres], by rw [h3, hres], ?_⟩
    intro tq hmem
    have hh := observeTrace_in_newSpan w (Ctx.spanCtx sp inner) f args id none tq hmem
    rw [hres] at hh
    simp at hh
  · intro sp inner t hctx
    subst hctx
    have hres : resolveSpan w (Ctx.spanCtx sp inner) id (some t) =
        ⟨inner, none, t, w, []⟩ := rfl
    have hfresh : ∀ par,
        (resolveSpan w (Ctx.spanCtx sp inner) id (some t)).parent = some par →
        par ≠ w.nextSpan := by
      intro par hp
      rw [hres] at hp
      cases hp
    obtain ⟨d', h1, h2, h3, _⟩ :=
      newSpan_span_entry w (Ctx.spanCtx sp inner) f args id (some t) hfresh
    refine ⟨d', h1, by rw [h2, hres], by rw [h3, hres], ?_⟩
    intro tq hmem
    have hh := observeTrace_in_newSpan w (Ctx.spanCtx sp inner) f args id (some t)
      tq hmem
    rw [hres] at hh
    simp at hh
  · intro sp dsp hguard hcv hl
    have hres : resolveSpan w ctx id none = ⟨ctx, some sp, dsp.trace, w, []⟩ := by
      cases ctx with
      | spanCtx q i => exact absurd rfl (hguard q i)
      | empty =>
        rw [ctxValue] at hcv
        cases hcv
      | withValue c k v =>
        unfold resolveSpan
        dsimp only
        rw [hcv]
        dsimp only
        rw [hl]
    have hfresh : ∀ par, (resolveSpan w ctx id none).parent = some par →
        par ≠ w.nextSpan := by
      intro par hp
      rw [hres] at hp
      cases hp
      exact Nat.ne_of_lt (look_lt_of_keysLt w.spans w.nextSpan sp dsp hkeys hl)
    obtain ⟨d', h1, h2, h3, _⟩ := newSpan_span_entry w ctx f args id none hfresh
    refine ⟨d', h1, by rw [h2, hres], by rw [h3, hres], ?_⟩
    intro tq hmem
    have hh := observeTrace_in_newSpan w ctx f args id none tq hmem
    rw [hres] at hh
    simp at hh
  · intro sp t hguard hcv
    have hres : resolveSpan w ctx id (some t) = ⟨ctx, none, t, w, []⟩ := by
      cases ctx with
      | spanCtx q i => exact absurd rfl (hguard q i)
      | empty => rfl
      | withValue c k v =>
        unfold resolveSpan
        dsimp only
        rw [hcv]
    have hfresh : ∀ par, (resolveSpan w ctx id (some t)).parent = some par →
        par ≠ w.nextSpan := by
      intro par hp
      rw [hres] at hp
      cases hp
    obtain ⟨d', h1, h2, h3, _⟩ := newSpan_span_entry w ctx f args id (some t) hfresh
    refine ⟨d', h1, by rw [h2, hres], by rw [h3, hres], ?_⟩
    intro tq hmem
    have hh := observeTrace_in_newSpan w ctx f args id (some t) tq hmem
    rw [hres] at hh
    simp at hh
  · intro hguard hncv
    have hres : resolveSpan w ctx id none =
        ⟨ctx, none, w.nextTrace,
          ⟨w.spans, upd w.traces w.nextTrace ⟨id, none⟩, w.arrays, w.nextSpan,
            w.nextTrace + 1, w.nextArr, w.clock⟩,
          [Action.evt (Event.observeTrace w.nextTrace)]⟩ := by
      cases ctx with
      | spanCtx q i => exact absurd rfl (hguard q i)
      | empty => rfl
      | withValue c k v =>
        unfold resolveSpan
        dsimp only
        cases hv : ctxValue (Ctx.withValue c k v) CtxKey.spanKey with
        | none => rfl
        | some val =>
          cases val with
          | spanVal s => exact absurd hv (hncv s)
          | otherVal n => rfl
    have hfresh : ∀ par, (resolveSpan w ctx id none).parent = some par →
        par ≠ w.nextSpan := by
      intro par hp
      rw [hres] at hp
      cases hp
    obtain ⟨d', h1, h2, h3, _⟩ := newSpan_span_entry w ctx f args id none hfresh
    refine ⟨d', h1, by rw [h2, hres], by rw [h3, hres], ?_, ?_⟩
    · exact resolveActs_sub_newSpan w ctx f args id none _ (by rw [hres]; simp)
    · rw [newSpan_traces, hres]
      exact look_upd_self _ _ _
  · intro hguard hncv t
    have hres : resolveSpan w ctx id (some t) = ⟨ctx, none, t, w, []⟩ := by
      cases ctx with
      | spanCtx q i => exact absurd rfl (hguard q i)
      | empty => rfl
      | withValue c k v =>
        unfold resolveSpan
        dsimp only
        cases hv : ctxValue (Ctx.withValue c k v) CtxKey.spanKey with
        | none => rfl
        | some val =>
          cases val with
          | spanVal s => exact absurd hv (hncv s)
          | otherVal n => rfl
    have hfresh : ∀ par, (resolveSpan w ctx id (some t)).parent = some par →
        par ≠ w.nextSpan := by
      intro par hp
      rw [hres] at hp
      cases hp
    obtain ⟨d', h1, h2, h3, _⟩ := newSpan_span_entry w ctx f args id (some t) hfresh
    refine ⟨d', h1, by rw [h2, hres], by rw [h3, hres], ?_⟩
    intro tq hmem
    have hh := observeTrace_in_newSpan w ctx f args id (some t) tq hmem
    rw [hres] at hh
    simp at hh

/-- C1 counterexample: in `wRoot` the live span 0 exists, and a span is
started with the incoming context *being* span 0 while an explicit trace
(pointer 0, which exists) is supplied.  The claim says the parent is
resolved independently of the trace argument, so span 0 should become
the parent; the code only assigns a parent when no explicit trace was
supplied, so the new span's parent is none. -/
theorem claim_C1_counterexample :
    (look (newSpan wRoot (Ctx.spanCtx 0 Ctx.empty) 2 [] 101 (some 0)).w.spans
        (newSpan wRoot (Ctx.spanCtx 0 Ctx.empty) 2 [] 101 (some 0)).sp).map
      (fun d => d.parent) = some none ∧
    ¬ ((look (newSpan wRoot (Ctx.spanCtx 0 Ctx.empty) 2 [] 101 (some 0)).w.spans
        (newSpan wRoot (Ctx.spanCtx 0 Ctx.empty) 2 [] 101 (some 0)).sp).map
      (fun d => d.parent) = some (some 0)) := by
  constructor
  · decide
  · decide

theorem claim_C1_witness :
    WF wRoot = true ∧ look wRoot.spans 0 = some rootData ∧
    (∃ d', look (newSpan wRoot (Ctx.spanCtx 0 Ctx.empty) 2 [] 101 none).w.spans
        (newSpan wRoot (Ctx.spanCtx 0 Ctx.empty) 2 [] 101 none).sp = some d' ∧
      d'.parent = some 0 ∧ d'.trace = rootData.trace ∧
      ∀ tq, Action.evt (Event.observeTrace tq) ∉
        (newSpan wRoot (Ctx.spanCtx 0 Ctx.empty) 2 [] 101 none).acts) ∧
    (∃ d', look (newSpan wRoot (Ctx.spanCtx 0 Ctx.empty) 2 [] 101 (some 0)).w.spans
        (newSpan wRoot (Ctx.spanCtx 0 Ctx.empty) 2 [] 101 (some 0)).sp = some d' ∧
      d'.parent = none ∧ d'.trace = 0 ∧
      ∀ tq, Action.evt (Event.observeTrace tq) ∉
        (newSpan wRoot (Ctx.spanCtx 0 Ctx.empty) 2 [] 101 (some 0)).acts) ∧
    (∃ d', look (newSpan wRoot Ctx.empty 3 [] 102 none).w.spans
        (newSpan wRoot Ctx.empty 3 [] 102 none).sp = some d' ∧
      d'.parent = none ∧ d'.trace = wRoot.nextTrace ∧
      Action.evt (Event.observeTrace wRoot.nextTrace) ∈
        (newSpan wRoot Ctx.empty 3 [] 102 none).acts ∧
      look (newSpan wRoot Ctx.empty 3 [] 102 none).w.traces wRoot.nextTrace =
        some ⟨102, none⟩) := by
  obtain ⟨c1a, c1b, _, _, _, _⟩ :=
    claim_C1_amended_resolution wRoot (Ctx.spanCtx 0 Ctx.empty) 2 [] 101 (by decide)
  obtain ⟨_, _, _, _, c3a, _⟩ :=
    claim_C1_amended_resolution wRoot Ctx.empty 3 [] 102 (by decide)
  exact ⟨by decide, by decide,
    c1a 0 Ctx.empty rootData rfl (by decide),
    c1b 0 Ctx.empty 0 rfl,
    c3a (fun q i h => Ctx.noConfusion h) (fun s h => by cases h)⟩

theorem all_of_look {α : Type} (l : List (Nat × α)) (P : Nat × α → Bool) (p : Nat)
    (v : α) (hall : l.all P = true) (hl : look l p = some v) : P (p, v) = true := by
  induction l with
  | nil => simp [look] at hl
  | cons kv rest ih =>
    obtain ⟨k, x⟩ := kv
    simp only [List.all_cons, Bool.and_eq_true] at hall
    by_cases hk : k = p
    · subst hk
      simp [look] at hl
      rw [← hl]
      exact hall.1
    · simp only [look, hk, if_false] at hl
      exact ih hall.2 hl

theorem annArr_lt_of_WF (w : World) (p : Nat) (d : SpanData) (hWF : WF w = true)
    (hd : look w.spans p = some d) : d.annArr < w.nextArr := by
  simp only [WF, Bool.and_eq_true] at hWF
  have := all_of_look w.spans (fun kv => decide (kv.2.annArr < w.nextArr)) p d
    hWF.2 hd
  simpa using this

theorem sliceWrite_look_ne (w : World) (arr i : Nat) (v : Annotation) (q : Nat)
    (h : q ≠ arr) : look (sliceWrite w arr i v).arrays q = look w.arrays q := by
  unfold sliceWrite
  cases look w.arrays arr with
  | none => rfl
  | some l =>
    dsimp only
    split
    · exact look_upd_ne _ _ _ _ h
    · rfl

/-- Annotate appends exactly one pair to the span's annotation contents
and leaves the span entry itself untouched. -/
theorem Annotate_contents (w : World) (p : Nat) (d : SpanData)
    (hd : look w.spans p = some d) (name val : String) :
    annContents (Annotate w p name val).1 p = annContents w p ++ [⟨name, val⟩] ∧
      look (Annotate w p name val).1.spans p = some d := by
  unfold Annotate
  rw [hd]
  dsimp only
  constructor
  · unfold annContents
    rw [hd]
    dsimp only
    rw [look_upd_self]
    rfl
  · exact hd

/-- A sequence of Annotate calls applied in order. -/
def annotateMany (w : World) (p : Nat) : List (String × String) → World
  | [] => w
  | nv :: rest => annotateMany (Annotate w p nv.1 nv.2).1 p rest

theorem annotateMany_prefix (w : World) (p : Nat) (d : SpanData)
    (hd : look w.spans p = some d) (l : List (String × String)) :
    ∃ suffix, annContents (annotateMany w p l) p = annContents w p ++ suffix ∧
      look (annotateMany w p l).spans p = some d := by
  induction l generalizing w with
  | nil => exact ⟨[], by simp [annotateMany], hd⟩
  | cons nv rest ih =>
    obtain ⟨hcon, hsp⟩ := Annotate_contents w p d hd nv.1 nv.2
    obtain ⟨suffix, hs1, hs2⟩ := ih (Annotate w p nv.1 nv.2).1 hsp
    refine ⟨⟨nv.1, nv.2⟩ :: suffix, ?_, hs2⟩
    show annContents (annotateMany (Annotate w p nv.1 nv.2).1 p rest) p = _
    rw [hs1, hcon]
    simp

/-- C7: the annotations accessor returns a point-in-time defensive copy:
the returned slice is backed by a freshly allocated array distinct from
the span's internal one, the accessor does not change the internal
contents, its copy equals the internal contents at call time, writing
through the returned slice neither changes the internal contents nor is
visible in a later accessor call (which still returns the same
contents), Annotate only appends one pair, and over any sequence of
Annotate calls the earlier contents remain a prefix of the later
contents. -/
theorem claim_C7_annotation_snapshot (w : World) (p : Nat) (d : SpanData)
    (hWF : WF w = true) (hd : look w.spans p = some d) :
    (Annotations w p).2.1 ≠ d.annArr ∧
    look (Annotations w p).1.arrays d.annArr = look w.arrays d.annArr ∧
    look (Annotations w p).1.arrays (Annotations w p).2.1 = some (annContents w p) ∧
    (∀ i v,
      look (sliceWrite (Annotations w p).1 (Annotations w p).2.1 i v).arrays d.annArr =
        look w.arrays d.annArr ∧
      annContents (sliceWrite (Annotations w p).1 (Annotations w p).2.1 i v) p =
        annContents w p ∧
      look (Annotations
          (sliceWrite (Annotations w p).1 (Annotations w p).2.1 i v) p).1.arrays
        (Annotations
          (sliceWrite (Annotations w p).1 (Annotations w p).2.1 i v) p).2.1 =
        some (annContents w p)) ∧
    (∀ name val, annContents (Annotate w p name val).1 p =
      annContents w p ++ [⟨name, val⟩]) ∧
    (∀ l, ∃ suffix, annContents (annotateMany w p l) p = annContents w p ++ suffix) := by
  have harr : d.annArr < w.nextArr := annArr_lt_of_WF w p d hWF hd
  have hcon : annContents w p = (look w.arrays d.annArr).getD [] := by
    unfold annContents
    rw [hd]
  have hA : Annotations w p =
      (⟨w.spans, w.traces, upd w.arrays w.nextArr ((look w.arrays d.annArr).getD []),
        w.nextSpan, w.nextTrace, w.nextArr + 1, w.clock⟩, w.nextArr,
        [Action.lock p, Action.unlock p]) := by
    unfold Annotations
    rw [hd]
  have hne : w.nextArr ≠ d.annArr := Ne.symm (Nat.ne_of_lt harr)
  refine ⟨?_, ?_, ?_, ?_, ?_, ?_⟩
  · rw [hA]
    exact hne
  · rw [hA]
    exact look_upd_ne _ _ _ _ (Ne.symm hne)
  · rw [hA, hcon]
    exact look_upd_self _ _ _
  · intro i v
    set w3 := sliceWrite (Annotations w p).1 (Annotations w p).2.1 i v with hw3
    have h1 : look w3.arrays d.annArr = look w.arrays d.annArr := by
      rw [hw3, sliceWrite_look_ne _ _ _ _ _ (by rw [hA]; exact Ne.symm hne), hA]
      exact look_upd_ne _ _ _ _ (Ne.symm hne)
    have hsp3 : look w3.spans p = some d := by
      rw [hw3, sliceWrite_spans, Annotations_spans, hd]
    have h2 : annContents w3 p = annContents w p := by
      unfold annContents
      rw [hsp3, hd]
      dsimp only
      rw [h1]
    have hA3 : Annotations w3 p =
        (⟨w3.spans, w3.traces,
          upd w3.arrays w3.nextArr ((look w3.arrays d.annArr).getD []),
          w3.nextSpan, w3.nextTrace, w3.nextArr + 1, w3.clock⟩, w3.nextArr,
          [Action.lock p, Action.unlock p]) := by
      unfold Annotations
      rw [hsp3]
    refine ⟨h1, h2, ?_⟩
    rw [hA3]
    dsimp only
    rw [look_upd_self, h1, hcon]
  · intro name val
    exact (Annotate_contents w p d hd name val).1
  · intro l
    obtain ⟨suffix, hs, _⟩ := annotateMany_prefix w p d hd l
    exact ⟨suffix, hs⟩

/-- The root-span world after one annotation has been recorded. -/
def wAnn : World := (Annotate wRoot 0 "k" "v").1

theorem claim_C7_witness :
    WF wAnn = true ∧ look wAnn.spans 0 = some rootData ∧
    (Annotations wAnn 0).2.1 ≠ rootData.annArr ∧
    look (Annotations wAnn 0).1.arrays rootData.annArr =
      look wAnn.arrays rootData.annArr ∧
    look (Annotations wAnn 0).1.arrays (Annotations wAnn 0).2.1 =
      some (annContents wAnn 0) ∧
    (look (sliceWrite (Annotations wAnn 0).1 (Annotations wAnn 0).2.1 0
        ⟨"x", "y"⟩).arrays rootData.annArr = look wAnn.arrays rootData.annArr ∧
      annContents (sliceWrite (Annotations wAnn 0).1 (Annotations wAnn 0).2.1 0
        ⟨"x", "y"⟩) 0 = annContents wAnn 0 ∧
      look (Annotations (sliceWrite (Annotations wAnn 0).1 (Annotations wAnn 0).2.1 0
          ⟨"x", "y"⟩) 0).1.arrays
        (Annotations (sliceWrite (Annotations wAnn 0).1 (Annotations wAnn 0).2.1 0
          ⟨"x", "y"⟩) 0).2.1 = some (annContents wAnn 0)) ∧
    annContents (Annotate wAnn 0 "a" "b").1 0 = annContents wAnn 0 ++ [⟨"a", "b"⟩] ∧
    (∃ suffix, annContents (annotateMany wAnn 0 [("c", "d"), ("e", "f")]) 0 =
      annContents wAnn 0 ++ suffix) := by
  obtain ⟨h1, h2, h3, h4, h5, h6⟩ :=
    claim_C7_annotation_snapshot wAnn 0 rootData (by decide) (by decide)
  exact ⟨by decide, by decide, h1, h2, h3, h4 0 ⟨"x", "y"⟩, h5 "a" "b",
    h6 [("c", "d"), ("e", "f")]⟩

end Monitor
